import Mathlib

/-!
Verification of the coindesk.js client library against its specification.

The JavaScript sources (src/src/coindesk/client.js, src/src/coindesk/utils.js,
src/src/coindesk/schemas.js, src/src/settings.json, src/src/errors.js) are
shallowly embedded below.  JavaScript strings are modelled as `List Char`
(abbreviated `Str`), JavaScript numbers as `ℚ` (every input the validators
accept is in fact an integer), and thrown errors as the `Except` monad with
an explicit error taxonomy mirroring src/src/errors.js.  The HTTP transport
and the local file system are modelled as explicit oracles: a transport maps
the (1-based) attempt index to either a resolved response or a rejection,
and a file-system oracle fixes the outcome of the read and write performed
by the currency-list refresh.
-/

namespace Coindesk

/-- JavaScript strings, modelled as their list of characters. -/
abbrev Str := List Char

/-- Error taxonomy of src/src/errors.js plus the engine-level TypeError.
`clientError` is CoindeskAPIClientError (the spec's ValidationError),
`requestError` is CoindeskAPIHttpRequestError (the spec's TransportError),
`responseError` is CoindeskAPIHttpResponseError, and `typeError` is a native
JavaScript TypeError/ReferenceError raised by the engine itself. -/
inductive JsErr where
  | clientError (message : Str)
  | requestError (message : Str)
  | responseError (message : Str)
  | typeError (message : Str)
  deriving Repr, DecidableEq

/-- The `message` property of a thrown error (BaseError stores the message
unchanged when `code` is null, which is the case for every throw site). -/
def JsErr.message : JsErr → Str
  | .clientError m => m
  | .requestError m => m
  | .responseError m => m
  | .typeError m => m

/-- Decimal rendering of an integer, as JavaScript template literals do. -/
def intToStr (i : Int) : Str := (toString i).toList

/-! ### Settings (src/src/settings.json) -/

def REQUEST_MAX_RETRIES : Int := 10

def REQUEST_MAX_REDIRECTS : Int := 5

def REQUEST_MAX_TIMEOUT : Int := 30000

def API_CURRENTPRICE_DATA_TYPE : Str := "currentprice".toList

def API_HISTORICAL_DATA_TYPE : Str := "historical".toList

def VALID_DATA_TYPES : List Str := [API_CURRENTPRICE_DATA_TYPE, API_HISTORICAL_DATA_TYPE]

def VALID_CURRENTPRICE_PARAMS : List Str := ["currency".toList]

def VALID_HISTORICAL_PARAMS : List Str :=
  ["index".toList, "currency".toList, "start".toList, "end".toList, "for".toList]

def VALID_INDEX : List Str := ["USD".toList, "CNY".toList]

def VALID_FOR : List Str := ["yesterday".toList]

/-- `API_ENDPOINTS` lookup table of settings.json (an unknown key yields the
empty resource; the client only ever looks up a validated data type or the
supported-currencies key). -/
def API_ENDPOINTS (dataType : Str) : Str :=
  if dataType = API_CURRENTPRICE_DATA_TYPE then "currentprice.json".toList
  else if dataType = API_HISTORICAL_DATA_TYPE then "historical/close.json".toList
  else if dataType = "supported-currencies".toList then "supported-currencies.json".toList
  else []

/-- `protocol://host path` of API_COINDESK_SETUP, already free of trailing
slashes, so `_cleanApiPath` leaves it unchanged. -/
def apiPathBase : Str := "https://api.coindesk.com/v1/bpi".toList

/-! ### Transport component (CoindeskAPIHttpRequest, src/src/coindesk/client.js)

A transport oracle maps the 1-based attempt index to the outcome of
`axios.get` for that attempt: either a rejection with an error message or a
resolved response. -/

/-- A resolved HTTP response: status, statusText and the decoded body. -/
structure HttpResponse (α : Type) where
  status : Int
  statusText : Str
  data : α
  deriving Repr, DecidableEq

/-- Outcome of one `axios.get` call: rejection message or resolved response. -/
abbrev Transport (α : Type) := Nat → Except Str (HttpResponse α)

/-- The validated request configuration held by CoindeskAPIHttpRequest
(retries, redirects, timeout in milliseconds, backoff flag). -/
structure RequestConfig where
  retries : Int
  redirects : Int
  timeout : Int
  backoff : Bool
  deriving Repr, DecidableEq

/-- Execution trace of the retry loop of `_httpRequest`: how many `axios.get`
attempts were issued and which waits (in milliseconds) were performed by
`_waitExponentialBackoff` after failed attempts. -/
structure HttpTrace where
  attempts : Nat
  waits : List Nat
  deriving Repr, DecidableEq

/-- The body of the retry loop of `_httpRequest`, iterated over the list of
remaining attempt indices.  On a resolved attempt the response is returned at
once; on a rejected attempt the loop waits `backoff ? 2^retry : 0`
milliseconds (also after the final failed attempt) and continues. -/
def runAttempts (transport : Transport α) (backoff : Bool) :
    List Nat → Option (HttpResponse α) × HttpTrace
  | [] => (none, ⟨0, []⟩)
  | k :: ks =>
    match transport k with
    | .ok r => (some r, ⟨1, []⟩)
    | .error _ =>
      let w := if backoff then 2 ^ k else 0
      let (res, tr) := runAttempts transport backoff ks
      (res, ⟨tr.attempts + 1, w :: tr.waits⟩)

/-- The attempt indices visited by `for (let retry = 1; retry <= retries; retry++)`. -/
def attemptIndices (retries : Int) : List Nat := List.range' 1 retries.toNat

/-- `_httpRequest(url, options)`: run the retry loop; if every attempt failed
(or the loop body never ran), throw a CoindeskAPIHttpRequestError naming the
url.  The trace is returned alongside for the timing statements. -/
def httpRequest (url : Str) (retries : Int) (backoff : Bool) (transport : Transport α) :
    Except JsErr (HttpResponse α) × HttpTrace :=
  match runAttempts transport backoff (attemptIndices retries) with
  | (some r, tr) => (.ok r, tr)
  | (none, tr) =>
    (.error (.requestError ("No response from Coindesk API url ".toList ++ url)), tr)

/-- The message thrown by `_checkResponseStatus` for a 403/404/500 response. -/
def statusErrorMessage (r : HttpResponse α) : Str :=
  "Response status code ".toList ++ intToStr r.status ++ " - ".toList ++ r.statusText

/-- `_checkResponseStatus(response)`: 403 and 404 are client errors, 500 is a
server error (both thrown as CoindeskAPIHttpRequestError); any other resolved
status is logged as success. -/
def checkResponseStatus (r : HttpResponse α) : Except JsErr Unit :=
  if r.status = 403 ∨ r.status = 404 then .error (.requestError (statusErrorMessage r))
  else if r.status = 500 then .error (.requestError (statusErrorMessage r))
  else .ok ()

/-- Result of `CoindeskAPIHttpRequest.get`: the raw response when `raw` is
true, otherwise the decoded payload `response.data`. -/
inductive GetResult (α : Type) where
  | raw (response : HttpResponse α)
  | payload (data : α)
  deriving Repr, DecidableEq

/-- `CoindeskAPIHttpRequest.get(url, raw)`: run `_httpRequest` inside a
try/catch that rewraps its error as `Could not make request - …`; then check
the response status (errors from the status check are not caught) and return
the payload or the raw response. -/
def requestGet (url : Str) (raw : Bool) (cfg : RequestConfig) (transport : Transport α) :
    Except JsErr (GetResult α) × HttpTrace :=
  match httpRequest url cfg.retries cfg.backoff transport with
  | (.error e, tr) =>
    (.error (.requestError ("Could not make request - ".toList ++ e.message)), tr)
  | (.ok resp, tr) =>
    match checkResponseStatus resp with
    | .error e => (.error e, tr)
    | .ok () => (.ok (if raw then .raw resp else .payload resp.data), tr)

end Coindesk

namespace Coindesk

/-! ### Timing lemmas for the retry loop -/

/-- Whether the transport rejects attempt `k`. -/
def failsAt (transport : Transport α) (k : Nat) : Bool :=
  match transport k with
  | .error _ => true
  | .ok _ => false

theorem runAttempts_waits (transport : Transport α) (backoff : Bool) (ks : List Nat) :
    (runAttempts transport backoff ks).2.waits =
      (ks.takeWhile (failsAt transport)).map (fun k => if backoff then 2 ^ k else 0) := by
  induction ks with
  | nil => rfl
  | cons k ks ih =>
    simp only [runAttempts, List.takeWhile]
    cases h : transport k with
    | ok r => simp [failsAt, h]
    | error e => simp [failsAt, h, ih]

theorem runAttempts_succeeds (transport : Transport α) (backoff : Bool) (ks : List Nat)
    (k : Nat) (r : HttpResponse α) (hk : k ∈ ks)
    (hfail : ∀ j ∈ ks, j < k → failsAt transport j = true)
    (hsorted : List.Sorted (· < ·) ks)
    (hr : transport k = .ok r) :
    (runAttempts transport backoff ks).1 = some r := by
  induction ks with
  | nil => cases hk
  | cons j ks ih =>
    rcases List.mem_cons.mp hk with rfl | hmem
    · simp [runAttempts, hr]
    · have hjk : j < k := (List.sorted_cons.mp hsorted).1 k hmem
      have hjfail : failsAt transport j = true := hfail j (List.mem_cons_self j ks) hjk
      simp only [runAttempts]
      cases h : transport j with
      | ok r2 => simp [failsAt, h] at hjfail
      | error e =>
        simpa using ih hmem (fun i hi hik => hfail i (List.mem_cons_of_mem j hi) hik)
          (List.sorted_cons.mp hsorted).2

end Coindesk

namespace Coindesk

/-! ### JavaScript values and the tuning validators (src/src/coindesk/utils.js) -/

/-- The JavaScript values the validators can receive: `undefined`, booleans,
numbers (modelled as rationals; `Number.isInteger` is denominator one) and
strings.  Objects appear separately as `JSVal` in the date-validator model. -/
inductive JsInput where
  | jsUndefined
  | boolean (b : Bool)
  | num (q : ℚ)
  | str (s : Str)
  deriving Repr, DecidableEq

/-- `typeof v`, as interpolated into the validator error messages. -/
def typeofStr : JsInput → Str
  | .jsUndefined => "undefined".toList
  | .boolean _ => "boolean".toList
  | .num _ => "number".toList
  | .str _ => "string".toList

/-- `validateRetries(retries)`: reject anything that is not a non-negative
integer number, otherwise clamp to REQUEST_MAX_RETRIES; the Bool records
whether the clamp warning was logged (`maxRetries < retries`). -/
def validateRetries (retries : JsInput) : Except JsErr (Int × Bool) :=
  match retries with
  | .num q =>
    if q.den ≠ 1 ∨ q < 0 then
      .error (.requestError
        ("Retries type number must be positive integer number.".toList))
    else
      let m := min q.num REQUEST_MAX_RETRIES
      .ok (m, decide (m < q.num))
  | v =>
    .error (.requestError
      (("Retries type ").toList ++ typeofStr v ++
        (" must be positive integer number.").toList))

/-- `validateRedirects(redirects)`: same shape with REQUEST_MAX_REDIRECTS. -/
def validateRedirects (redirects : JsInput) : Except JsErr (Int × Bool) :=
  match redirects with
  | .num q =>
    if q.den ≠ 1 ∨ q < 0 then
      .error (.requestError
        ("Redirects type number must be positive integer number.".toList))
    else
      let m := min q.num REQUEST_MAX_REDIRECTS
      .ok (m, decide (m < q.num))
  | v =>
    .error (.requestError
      (("Redirects type ").toList ++ typeofStr v ++
        (" must be positive integer number.").toList))

/-- `validateTimeout(timeout)`: same shape with REQUEST_MAX_TIMEOUT. -/
def validateTimeout (timeout : JsInput) : Except JsErr (Int × Bool) :=
  match timeout with
  | .num q =>
    if q.den ≠ 1 ∨ q < 0 then
      .error (.requestError
        ("Timeout type number must be positive integer number.".toList))
    else
      let m := min q.num REQUEST_MAX_TIMEOUT
      .ok (m, decide (m < q.num))
  | v =>
    .error (.requestError
      (("Timeout type ").toList ++ typeofStr v ++
        (" must be positive integer number.").toList))

/-- `validateBackoff(backoff)`: anything but a boolean throws. -/
def validateBackoff (backoff : JsInput) : Except JsErr Bool :=
  match backoff with
  | .boolean b => .ok b
  | v =>
    .error (.requestError
      (("Backoff type ").toList ++ typeofStr v ++ (" must be boolean.").toList))

/-- `CoindeskAPIHttpRequest.validate` followed by the constructor, as invoked
by `CoindeskAPIClient.start`: validate all four tuning values and store them. -/
def requestStart (retries redirects timeout backoff : JsInput) :
    Except JsErr RequestConfig :=
  match validateRetries retries with
  | .error e => .error e
  | .ok (r, _) =>
    match validateRedirects redirects with
    | .error e => .error e
    | .ok (rd, _) =>
      match validateTimeout timeout with
      | .error e => .error e
      | .ok (t, _) =>
        match validateBackoff backoff with
        | .error e => .error e
        | .ok b => .ok ⟨r, rd, t, b⟩

/-- The `retries` setter: on a validation error the exception propagates and
the stored configuration is untouched; on success the clamped value is stored. -/
def setRetries (cfg : RequestConfig) (v : JsInput) : RequestConfig × Option JsErr :=
  match validateRetries v with
  | .ok (n, _) => ({ cfg with retries := n }, none)
  | .error e => (cfg, some e)

/-- The `redirects` setter. -/
def setRedirects (cfg : RequestConfig) (v : JsInput) : RequestConfig × Option JsErr :=
  match validateRedirects v with
  | .ok (n, _) => ({ cfg with redirects := n }, none)
  | .error e => (cfg, some e)

/-- The `timeout` setter. -/
def setTimeout (cfg : RequestConfig) (v : JsInput) : RequestConfig × Option JsErr :=
  match validateTimeout v with
  | .ok (n, _) => ({ cfg with timeout := n }, none)
  | .error e => (cfg, some e)

/-- The `backoff` setter. -/
def setBackoff (cfg : RequestConfig) (v : JsInput) : RequestConfig × Option JsErr :=
  match validateBackoff v with
  | .ok b => ({ cfg with backoff := b }, none)
  | .error e => (cfg, some e)

/-- The request-configuration invariant: retries, redirects and timeout are
non-negative integers bounded by their configured maxima (the backoff field
is a boolean by construction of the model, exactly as `validateBackoff`
admits only booleans). -/
def validConfig (cfg : RequestConfig) : Prop :=
  0 ≤ cfg.retries ∧ cfg.retries ≤ REQUEST_MAX_RETRIES ∧
  0 ≤ cfg.redirects ∧ cfg.redirects ≤ REQUEST_MAX_REDIRECTS ∧
  0 ≤ cfg.timeout ∧ cfg.timeout ≤ REQUEST_MAX_TIMEOUT

instance (cfg : RequestConfig) : Decidable (validConfig cfg) := by
  unfold validConfig; infer_instance

/-- A JavaScript value is a non-negative integer number. -/
def isNonnegIntNum : JsInput → Bool
  | .num q => q.den = 1 ∧ 0 ≤ q
  | _ => false

end Coindesk

namespace Coindesk

theorem httpRequest_trace (url : Str) (retries : Int) (backoff : Bool)
    (transport : Transport α) :
    (httpRequest url retries backoff transport).2 =
      (runAttempts transport backoff (attemptIndices retries)).2 := by
  unfold httpRequest
  rcases h : runAttempts transport backoff (attemptIndices retries) with ⟨res, tr⟩
  cases res <;> simp

/-- Claim C1: with `retries = 3` and `backoff = true`, a transport that
rejects the first two attempts and resolves the third makes `get` return the
third attempt's payload after exactly two backoff waits of 2 ms and 4 ms
(2^1 and 2^2); and in general the wait performed after failed attempt `k` is
`2^k` milliseconds when backoff is enabled and `0` when it is disabled. -/
theorem retry_backoff_waits {α : Type} (url : Str) (transport : Transport α)
    (e1 e2 : Str) (r : HttpResponse α)
    (h1 : transport 1 = .error e1) (h2 : transport 2 = .error e2)
    (h3 : transport 3 = .ok r)
    (h403 : r.status ≠ 403) (h404 : r.status ≠ 404) (h500 : r.status ≠ 500) :
    requestGet url false ⟨3, 5, 5000, true⟩ transport
      = (.ok (.payload r.data), ⟨3, [2, 4]⟩)
    ∧ ∀ (retries : Int) (backoff : Bool),
        (httpRequest url retries backoff transport).2.waits =
          ((attemptIndices retries).takeWhile (failsAt transport)).map
            (fun k => if backoff then 2 ^ k else 0) := by
  constructor
  · have hidx : attemptIndices 3 = [1, 2, 3] := rfl
    simp only [requestGet, httpRequest, hidx, runAttempts, h1, h2, h3,
      checkResponseStatus, h403, h404, h500, or_self, if_false, if_true]
    norm_num
  · intro retries backoff
    rw [httpRequest_trace, runAttempts_waits]

theorem retry_backoff_waits_witness :
    requestGet ("u").toList false ⟨3, 5, 5000, true⟩
        (fun k => if k < 3 then Except.error ("boom").toList
                  else Except.ok ⟨200, ("OK").toList, (7 : Nat)⟩)
      = (.ok (.payload 7), ⟨3, [2, 4]⟩) :=
  (retry_backoff_waits ("u").toList
      (fun k => if k < 3 then Except.error ("boom").toList
                else Except.ok ⟨200, ("OK").toList, (7 : Nat)⟩)
      ("boom").toList ("boom").toList ⟨200, ("OK").toList, (7 : Nat)⟩
      rfl rfl rfl (by decide) (by decide) (by decide)).1

end Coindesk

namespace Coindesk

/-- Claim C2: when the underlying request resolves (on its first attempt)
with a response, statuses 403, 404 and 500 make `get` throw a
CoindeskAPIHttpRequestError immediately — one attempt, no backoff wait —
whose message carries the status code, while any other resolved status
returns the decoded payload, or the raw response when `raw = true`. -/
theorem status_classification {α : Type} (url : Str) (raw : Bool)
    (cfg : RequestConfig) (transport : Transport α) (resp : HttpResponse α)
    (hret : 1 ≤ cfg.retries) (h1 : transport 1 = .ok resp) :
    ((resp.status = 403 ∨ resp.status = 404 ∨ resp.status = 500) →
      requestGet url raw cfg transport
        = (.error (.requestError (statusErrorMessage resp)), ⟨1, []⟩)
      ∧ ∃ pre post, statusErrorMessage resp = pre ++ intToStr resp.status ++ post)
    ∧ (resp.status ≠ 403 → resp.status ≠ 404 → resp.status ≠ 500 →
      requestGet url raw cfg transport
        = (.ok (if raw then .raw resp else .payload resp.data), ⟨1, []⟩)) := by
  obtain ⟨n, hn⟩ : ∃ n, cfg.retries.toNat = n + 1 :=
    ⟨cfg.retries.toNat - 1, by omega⟩
  have hidx : attemptIndices cfg.retries = 1 :: List.range' 2 n := by
    unfold attemptIndices
    rw [hn, List.range'_succ]
  have hrun : runAttempts transport cfg.backoff (attemptIndices cfg.retries)
      = (some resp, ⟨1, []⟩) := by
    rw [hidx]; simp [runAttempts, h1]
  constructor
  · intro hstatus
    constructor
    · have hcheck : checkResponseStatus resp
          = .error (.requestError (statusErrorMessage resp)) := by
        rcases hstatus with h | h | h <;> simp [checkResponseStatus, h]
      simp [requestGet, httpRequest, hrun, hcheck]
    · exact ⟨"Response status code ".toList,
        " - ".toList ++ resp.statusText, by simp [statusErrorMessage]⟩
  · intro h403 h404 h500
    have hcheck : checkResponseStatus resp = .ok () := by
      simp [checkResponseStatus, h403, h404, h500]
    simp [requestGet, httpRequest, hrun, hcheck]

theorem status_classification_witness :
    requestGet ("u").toList false ⟨10, 5, 5000, true⟩
        (fun _ => Except.ok ⟨404, ("Not Found").toList, (7 : Nat)⟩)
      = (.error (.requestError (("Response status code 404 - Not Found").toList)), ⟨1, []⟩)
    ∧ requestGet ("u").toList false ⟨10, 5, 5000, true⟩
        (fun _ => Except.ok ⟨200, ("OK").toList, (7 : Nat)⟩)
      = (.ok (.payload 7), ⟨1, []⟩) := by
  constructor
  · exact ((status_classification ("u").toList false ⟨10, 5, 5000, true⟩
      (fun _ => Except.ok ⟨404, ("Not Found").toList, (7 : Nat)⟩)
      ⟨404, ("Not Found").toList, (7 : Nat)⟩ (by decide) rfl).1
      (Or.inr (Or.inl rfl))).1
  · exact (status_classification ("u").toList false ⟨10, 5, 5000, true⟩
      (fun _ => Except.ok ⟨200, ("OK").toList, (7 : Nat)⟩)
      ⟨200, ("OK").toList, (7 : Nat)⟩ (by decide) rfl).2
      (by decide) (by decide) (by decide)

/-- Claim C10: `validateRetries` accepts 0, and a request configured with
`retries = 0` never runs the loop body of `_httpRequest`: no attempt is
issued, no wait is performed, and `get` throws a CoindeskAPIHttpRequestError
stating that there was no response from the given url. -/
theorem zero_retries_no_attempt {α : Type} (url : Str) (raw : Bool)
    (redirects timeout : Int) (backoff : Bool) (transport : Transport α) :
    validateRetries (.num 0) = .ok (0, false)
    ∧ requestGet url raw ⟨0, redirects, timeout, backoff⟩ transport
        = (.error (.requestError
            (("Could not make request - No response from Coindesk API url ").toList ++ url)),
           ⟨0, []⟩) := by
  refine ⟨rfl, ?_⟩
  have hidx : attemptIndices 0 = [] := rfl
  simp only [requestGet, httpRequest, hidx, runAttempts, JsErr.message]
  rfl

end Coindesk

namespace Coindesk

theorem validateRetries_bounds (v : JsInput) (n : Int) (w : Bool)
    (h : validateRetries v = .ok (n, w)) : 0 ≤ n ∧ n ≤ REQUEST_MAX_RETRIES := by
  cases v with
  | num q =>
    by_cases hq : q.den ≠ 1 ∨ q < 0
    · simp [validateRetries, hq] at h
    · push_neg at hq
      have hcond : ¬(q.den ≠ 1 ∨ q < 0) := by
        push_neg
        exact hq
      simp only [validateRetries, if_neg hcond, Except.ok.injEq, Prod.mk.injEq] at h
      have hnum : 0 ≤ q.num := Rat.num_nonneg.mpr hq.2
      constructor
      · rw [← h.1]; exact le_min hnum (by norm_num [REQUEST_MAX_RETRIES])
      · rw [← h.1]; exact min_le_right _ _
  | jsUndefined => simp [validateRetries] at h
  | boolean b => simp [validateRetries] at h
  | str s => simp [validateRetries] at h

theorem validateRedirects_bounds (v : JsInput) (n : Int) (w : Bool)
    (h : validateRedirects v = .ok (n, w)) : 0 ≤ n ∧ n ≤ REQUEST_MAX_REDIRECTS := by
  cases v with
  | num q =>
    by_cases hq : q.den ≠ 1 ∨ q < 0
    · simp [validateRedirects, hq] at h
    · push_neg at hq
      have hcond : ¬(q.den ≠ 1 ∨ q < 0) := by
        push_neg
        exact hq
      simp only [validateRedirects, if_neg hcond, Except.ok.injEq, Prod.mk.injEq] at h
      have hnum : 0 ≤ q.num := Rat.num_nonneg.mpr hq.2
      constructor
      · rw [← h.1]; exact le_min hnum (by norm_num [REQUEST_MAX_REDIRECTS])
      · rw [← h.1]; exact min_le_right _ _
  | jsUndefined => simp [validateRedirects] at h
  | boolean b => simp [validateRedirects] at h
  | str s => simp [validateRedirects] at h

theorem validateTimeout_bounds (v : JsInput) (n : Int) (w : Bool)
    (h : validateTimeout v = .ok (n, w)) : 0 ≤ n ∧ n ≤ REQUEST_MAX_TIMEOUT := by
  cases v with
  | num q =>
    by_cases hq : q.den ≠ 1 ∨ q < 0
    · simp [validateTimeout, hq] at h
    · push_neg at hq
      have hcond : ¬(q.den ≠ 1 ∨ q < 0) := by
        push_neg
        exact hq
      simp only [validateTimeout, if_neg hcond, Except.ok.injEq, Prod.mk.injEq] at h
      have hnum : 0 ≤ q.num := Rat.num_nonneg.mpr hq.2
      constructor
      · rw [← h.1]; exact le_min hnum (by norm_num [REQUEST_MAX_TIMEOUT])
      · rw [← h.1]; exact min_le_right _ _
  | jsUndefined => simp [validateTimeout] at h
  | boolean b => simp [validateTimeout] at h
  | str s => simp [validateTimeout] at h

theorem validateRetries_rejects (v : JsInput) (h : isNonnegIntNum v = false) :
    ∃ e, validateRetries v = .error e := by
  cases v with
  | num q =>
    simp only [isNonnegIntNum, decide_eq_false_iff_not, not_and_or] at h
    have hq : q.den ≠ 1 ∨ q < 0 := by
      rcases h with h | h
      · exact Or.inl h
      · exact Or.inr (lt_of_not_ge h)
    exact ⟨.requestError (("Retries type number must be positive integer number.").toList),
      by simp [validateRetries, hq]⟩
  | jsUndefined => exact ⟨_, rfl⟩
  | boolean b => exact ⟨_, rfl⟩
  | str s => exact ⟨_, rfl⟩

theorem validateRedirects_rejects (v : JsInput) (h : isNonnegIntNum v = false) :
    ∃ e, validateRedirects v = .error e := by
  cases v with
  | num q =>
    simp only [isNonnegIntNum, decide_eq_false_iff_not, not_and_or] at h
    have hq : q.den ≠ 1 ∨ q < 0 := by
      rcases h with h | h
      · exact Or.inl h
      · exact Or.inr (lt_of_not_ge h)
    exact ⟨.requestError (("Redirects type number must be positive integer number.").toList),
      by simp [validateRedirects, hq]⟩
  | jsUndefined => exact ⟨_, rfl⟩
  | boolean b => exact ⟨_, rfl⟩
  | str s => exact ⟨_, rfl⟩

theorem validateTimeout_rejects (v : JsInput) (h : isNonnegIntNum v = false) :
    ∃ e, validateTimeout v = .error e := by
  cases v with
  | num q =>
    simp only [isNonnegIntNum, decide_eq_false_iff_not, not_and_or] at h
    have hq : q.den ≠ 1 ∨ q < 0 := by
      rcases h with h | h
      · exact Or.inl h
      · exact Or.inr (lt_of_not_ge h)
    exact ⟨.requestError (("Timeout type number must be positive integer number.").toList),
      by simp [validateTimeout, hq]⟩
  | jsUndefined => exact ⟨_, rfl⟩
  | boolean b => exact ⟨_, rfl⟩
  | str s => exact ⟨_, rfl⟩

/-- Claim C8: the request-configuration invariant — retries, redirects and
timeout non-negative integers no greater than their maxima, backoff a
boolean — holds after construction via `start` and is preserved by every
setter; an over-maximum value such as `validateRetries(1000)` is clamped to
the configured maximum with a warning instead of an error; and a
non-integer, negative or non-numeric input is rejected with an error while
the stored value stays unchanged. -/
theorem request_config_invariant :
    (∀ r rd t b cfg, requestStart r rd t b = .ok cfg → validConfig cfg)
    ∧ (∀ cfg v, validConfig cfg →
        validConfig (setRetries cfg v).1 ∧ validConfig (setRedirects cfg v).1 ∧
        validConfig (setTimeout cfg v).1 ∧ validConfig (setBackoff cfg v).1)
    ∧ (∀ cfg v, isNonnegIntNum v = false →
        (setRetries cfg v).1 = cfg ∧ (setRetries cfg v).2.isSome = true ∧
        (setRedirects cfg v).1 = cfg ∧ (setRedirects cfg v).2.isSome = true ∧
        (setTimeout cfg v).1 = cfg ∧ (setTimeout cfg v).2.isSome = true)
    ∧ (∀ v b, validateBackoff v = .ok b → v = .boolean b)
    ∧ validateRetries (.num 1000) = .ok (10, true) := by
  refine ⟨?_, ?_, ?_, ?_, ?_⟩
  · intro r rd t b cfg h
    unfold requestStart at h
    rcases hr : validateRetries r with e | ⟨nr, wr⟩ <;> rw [hr] at h
    · simp at h
    rcases hrd : validateRedirects rd with e | ⟨nrd, wrd⟩ <;> rw [hrd] at h
    · simp at h
    rcases ht : validateTimeout t with e | ⟨nt, wt⟩ <;> rw [ht] at h
    · simp at h
    rcases hb : validateBackoff b with e | bb <;> rw [hb] at h
    · simp at h
    have hcfg : cfg = ⟨nr, nrd, nt, bb⟩ := by
      cases h
      rfl
    subst hcfg
    obtain ⟨h1, h2⟩ := validateRetries_bounds r nr wr hr
    obtain ⟨h3, h4⟩ := validateRedirects_bounds rd nrd wrd hrd
    obtain ⟨h5, h6⟩ := validateTimeout_bounds t nt wt ht
    exact ⟨h1, h2, h3, h4, h5, h6⟩
  · intro cfg v hcfg
    refine ⟨?_, ?_, ?_, ?_⟩
    · unfold setRetries
      rcases h : validateRetries v with e | ⟨n, w⟩
      · exact hcfg
      · obtain ⟨h1, h2⟩ := validateRetries_bounds v n w h
        exact ⟨h1, h2, hcfg.2.2.1, hcfg.2.2.2.1, hcfg.2.2.2.2.1, hcfg.2.2.2.2.2⟩
    · unfold setRedirects
      rcases h : validateRedirects v with e | ⟨n, w⟩
      · exact hcfg
      · obtain ⟨h1, h2⟩ := validateRedirects_bounds v n w h
        exact ⟨hcfg.1, hcfg.2.1, h1, h2, hcfg.2.2.2.2.1, hcfg.2.2.2.2.2⟩
    · unfold setTimeout
      rcases h : validateTimeout v with e | ⟨n, w⟩
      · exact hcfg
      · obtain ⟨h1, h2⟩ := validateTimeout_bounds v n w h
        exact ⟨hcfg.1, hcfg.2.1, hcfg.2.2.1, hcfg.2.2.2.1, h1, h2⟩
    · unfold setBackoff
      rcases h : validateBackoff v with e | b
      · exact hcfg
      · exact hcfg
  · intro cfg v hv
    obtain ⟨e1, h1⟩ := validateRetries_rejects v hv
    obtain ⟨e2, h2⟩ := validateRedirects_rejects v hv
    obtain ⟨e3, h3⟩ := validateTimeout_rejects v hv
    refine ⟨?_, ?_, ?_, ?_, ?_, ?_⟩ <;>
      simp [setRetries, setRedirects, setTimeout, h1, h2, h3]
  · intro v b h
    cases v with
    | boolean b2 => cases h; rfl
    | jsUndefined => simp [validateBackoff] at h
    | num q => simp [validateBackoff] at h
    | str s => simp [validateBackoff] at h
  · rfl

theorem request_config_invariant_witness :
    validConfig ⟨3, 2, 100, true⟩
    ∧ validConfig (setRetries ⟨3, 2, 100, true⟩ (.str ("x").toList)).1
    ∧ (setRetries ⟨3, 2, 100, true⟩ (.num (-1))).1 = ⟨3, 2, 100, true⟩
    ∧ JsInput.boolean true = .boolean true := by
  refine ⟨?_, ?_, ?_, ?_⟩
  · exact request_config_invariant.1 (.num 3) (.num 2) (.num 100) (.boolean true)
      ⟨3, 2, 100, true⟩ rfl
  · exact (request_config_invariant.2.1 ⟨3, 2, 100, true⟩ (.str ("x").toList)
      (by decide)).1
  · exact (request_config_invariant.2.2.1 ⟨3, 2, 100, true⟩ (.num (-1)) (by decide)).1
  · exact request_config_invariant.2.2.2.1 (.boolean true) true rfl

end Coindesk

namespace Coindesk

/-! ### Percent-encoding (`encodeURIComponent` / `decodeURIComponent`)

`_getEncodedParams` percent-encodes keys and values with JavaScript's
`encodeURIComponent`, which leaves the unreserved characters
`A–Z a–z 0–9 - _ . ! ~ * ' ( )` alone and encodes every other character as
the `%HH` sequences of its UTF-8 bytes (uppercase hexadecimal). -/

/-- The characters `encodeURIComponent` leaves unescaped. -/
def uriUnreserved (c : Char) : Bool :=
  c.isAlphanum || c ∈ ['-', '_', '.', '!', '~', '*', Char.ofNat 39, '(', ')']

/-- UTF-8 bytes of a character (as natural numbers below 256). -/
def utf8Bytes (c : Char) : List Nat :=
  let n := c.toNat
  if n < 0x80 then [n]
  else if n < 0x800 then
    [0xC0 + n / 0x40, 0x80 + n % 0x40]
  else if n < 0x10000 then
    [0xE0 + n / 0x1000, 0x80 + n / 0x40 % 0x40, 0x80 + n % 0x40]
  else
    [0xF0 + n / 0x40000, 0x80 + n / 0x1000 % 0x40, 0x80 + n / 0x40 % 0x40, 0x80 + n % 0x40]

/-- Uppercase hexadecimal digit. -/
def hexDigit (n : Nat) : Char :=
  if n < 10 then Char.ofNat (48 + n) else Char.ofNat (65 + (n - 10))

/-- `%HH` escape of one byte. -/
def percentByte (b : Nat) : Str := ['%', hexDigit (b / 16), hexDigit (b % 16)]

/-- `encodeURIComponent` on a single character. -/
def encodeChar (c : Char) : Str :=
  if uriUnreserved c then [c] else (utf8Bytes c).flatMap percentByte

/-- `encodeURIComponent` on a string. -/
def encodeURIComponent (s : Str) : Str := s.flatMap encodeChar

/-- Value of a hexadecimal digit character, if it is one. -/
def hexVal (c : Char) : Option Nat :=
  if 48 ≤ c.toNat ∧ c.toNat ≤ 57 then some (c.toNat - 48)
  else if 65 ≤ c.toNat ∧ c.toNat ≤ 70 then some (c.toNat - 55)
  else if 97 ≤ c.toNat ∧ c.toNat ≤ 102 then some (c.toNat - 87)
  else none

/-- Whether a natural number codes a UTF-8 continuation byte. -/
def isCont (b : Nat) : Bool := 0x80 ≤ b ∧ b < 0xC0

/-- Number of continuation bytes demanded by a UTF-8 lead byte. -/
def utf8Need (b : Nat) : Nat := if b < 0xE0 then 1 else if b < 0xF0 then 2 else 3

/-- Payload bits of a UTF-8 lead byte. -/
def utf8Lead (b : Nat) : Nat :=
  if b < 0xE0 then b - 0xC0 else if b < 0xF0 then b - 0xE0 else b - 0xF0

/-- Code point assembled from a lead byte and its continuation bytes. -/
def utf8Acc (b : Nat) (cont : List Nat) : Nat :=
  cont.foldl (fun acc x => acc * 0x40 + (x - 0x80)) (utf8Lead b)

/-- Byte stream of a percent-encoded string: a `%HH` escape contributes the
byte `HH`, any other character contributes its own UTF-8 bytes.  `none`
models the URIError thrown on a truncated or malformed escape.  The fuel
argument (one unit per leading character) makes the recursion structural;
`percentDecodeBytes` supplies `s.length`, which is always sufficient. -/
def percentDecodeAux : Nat → Str → Option (List Nat)
  | _, [] => some []
  | 0, _ :: _ => none
  | fuel + 1, c :: rest =>
    if c = '%' then
      Option.bind rest.head? fun h1 =>
      Option.bind rest.tail.head? fun h2 =>
      Option.bind (hexVal h1) fun v1 =>
      Option.bind (hexVal h2) fun v2 =>
      Option.map (fun bs => (v1 * 16 + v2) :: bs) (percentDecodeAux fuel rest.tail.tail)
    else Option.map (fun bs => utf8Bytes c ++ bs) (percentDecodeAux fuel rest)

def percentDecodeBytes (s : Str) : Option (List Nat) := percentDecodeAux s.length s

/-- UTF-8 decoding of a byte stream into characters; `none` models the
URIError thrown on an invalid sequence (the decoder accepts a superset of
strict UTF-8 on inputs that are already malformed, which the client never
produces).  The fuel argument (one unit per decoded code point) makes the
recursion structural; `utf8Decode` supplies `bs.length`. -/
def utf8DecodeAux : Nat → List Nat → Option Str
  | _, [] => some []
  | 0, _ :: _ => none
  | fuel + 1, b :: rest =>
    if b < 0x80 then (fun cs => Char.ofNat b :: cs) <$> utf8DecodeAux fuel rest
    else if b < 0xC2 ∨ 0xF4 < b then none
    else if (rest.take (utf8Need b)).length = utf8Need b
        ∧ (rest.take (utf8Need b)).all isCont then
      (fun cs => Char.ofNat (utf8Acc b (rest.take (utf8Need b))) :: cs)
        <$> utf8DecodeAux fuel (rest.drop (utf8Need b))
    else none

def utf8Decode (bs : List Nat) : Option Str := utf8DecodeAux bs.length bs

/-- `decodeURIComponent`: percent-decode to bytes and read them as UTF-8. -/
def decodeURIComponent (s : Str) : Option Str :=
  Option.bind (percentDecodeBytes s) utf8Decode

end Coindesk

namespace Coindesk

/-! ### String splitting and joining (`String.prototype.split` / `Array.prototype.join`) -/

/-- `s.split(sep)` for a single-character separator. -/
def splitOnChar (sep : Char) : Str → List Str
  | [] => [[]]
  | c :: rest =>
    let r := splitOnChar sep rest
    if c = sep then [] :: r
    else
      match r with
      | [] => [[c]]
      | h :: t => (c :: h) :: t

/-- `parts.join(sep)`. -/
def joinSep (sep : Str) : List Str → Str
  | [] => []
  | [x] => x
  | x :: y :: ys => x ++ sep ++ joinSep sep (y :: ys)

/-- Split a string at the first occurrence of a character. -/
def splitFirst (sep : Char) : Str → Option (Str × Str)
  | [] => none
  | c :: rest =>
    if c = sep then some ([], rest)
    else
      match splitFirst sep rest with
      | none => none
      | some (a, b) => some (c :: a, b)

theorem splitOnChar_ne_nil (sep : Char) (s : Str) : splitOnChar sep s ≠ [] := by
  cases s with
  | nil => simp [splitOnChar]
  | cons c rest =>
    simp only [splitOnChar]
    by_cases h : c = sep
    · simp [h]
    · simp only [if_neg h]
      rcases splitOnChar sep rest with _ | ⟨h2, t⟩ <;> simp

theorem splitOnChar_no_sep (sep : Char) (s : Str) (h : ∀ c ∈ s, c ≠ sep) :
    splitOnChar sep s = [s] := by
  induction s with
  | nil => rfl
  | cons c rest ih =>
    have hc : c ≠ sep := h c (List.mem_cons_self c rest)
    have hrest := ih (fun x hx => h x (List.mem_cons_of_mem c hx))
    simp [splitOnChar, hc, hrest]

theorem splitOnChar_append (sep : Char) (a b : Str) (h : ∀ c ∈ a, c ≠ sep) :
    splitOnChar sep (a ++ sep :: b) = a :: splitOnChar sep b := by
  induction a with
  | nil => simp [splitOnChar]
  | cons c rest ih =>
    have hc : c ≠ sep := h c (List.mem_cons_self c rest)
    have hrest := ih (fun x hx => h x (List.mem_cons_of_mem c hx))
    simp [splitOnChar, hc, hrest]

theorem splitFirst_append (sep : Char) (k v : Str) (h : ∀ c ∈ k, c ≠ sep) :
    splitFirst sep (k ++ sep :: v) = some (k, v) := by
  induction k with
  | nil => simp [splitFirst]
  | cons c rest ih =>
    have hc : c ≠ sep := h c (List.mem_cons_self c rest)
    have hrest := ih (fun x hx => h x (List.mem_cons_of_mem c hx))
    simp [splitFirst, hc, hrest]

/-! ### Round-trip lemmas for percent-encoding -/

/-- All characters of the string are unreserved. -/
def uriPlain (s : Str) : Bool := s.all uriUnreserved

theorem uriUnreserved_ne (c : Char) (h : uriUnreserved c = true) :
    c ≠ '%' ∧ c ≠ '&' ∧ c ≠ '=' := by
  refine ⟨?_, ?_, ?_⟩ <;> rintro rfl <;> exact absurd h (by decide)

theorem encodeURIComponent_plain (s : Str) (h : uriPlain s = true) :
    encodeURIComponent s = s := by
  induction s with
  | nil => rfl
  | cons c rest ih =>
    simp only [uriPlain, List.all_cons, Bool.and_eq_true] at h
    have hrest : encodeURIComponent rest = rest := ih h.2
    show encodeChar c ++ rest.flatMap encodeChar = c :: rest
    rw [show encodeChar c = [c] from by simp [encodeChar, h.1]]
    simp only [encodeURIComponent] at hrest
    simp [hrest]

theorem char_toNat_lt (c : Char) : c.toNat < 0x110000 := by
  rcases c.valid with h | h
  · exact Nat.lt_trans h (by norm_num)
  · exact h.2

theorem utf8Bytes_length_pos (c : Char) : 1 ≤ (utf8Bytes c).length := by
  unfold utf8Bytes
  dsimp only
  split_ifs <;> simp

theorem utf8DecodeAux_encode_cons (f : Nat) (c : Char) (bs : List Nat) :
    utf8DecodeAux (f + 1) (utf8Bytes c ++ bs) = (utf8DecodeAux f bs).map (c :: ·) := by
  have hval := char_toNat_lt c
  unfold utf8Bytes
  by_cases h1 : c.toNat < 0x80
  · rw [if_pos h1]
    show utf8DecodeAux (f + 1) (c.toNat :: bs) = _
    rw [utf8DecodeAux, if_pos h1, Char.ofNat_toNat]
    cases utf8DecodeAux f bs <;> rfl
  · by_cases h2 : c.toNat < 0x800
    · rw [if_neg h1, if_pos h2]
      show utf8DecodeAux (f + 1)
        ((0xC0 + c.toNat / 0x40) :: (0x80 + c.toNat % 0x40) :: bs) = _
      have hneed : utf8Need (0xC0 + c.toNat / 0x40) = 1 := if_pos (by omega)
      rw [utf8DecodeAux, if_neg (by omega), if_neg (by omega), hneed]
      rw [show List.take 1 ((0x80 + c.toNat % 0x40) :: bs) = [0x80 + c.toNat % 0x40] from rfl]
      rw [if_pos ⟨rfl, by simp [isCont]; omega⟩]
      rw [show List.drop 1 ((0x80 + c.toNat % 0x40) :: bs) = bs from rfl]
      have hacc : utf8Acc (0xC0 + c.toNat / 0x40) [0x80 + c.toNat % 0x40] = c.toNat := by
        simp only [utf8Acc, utf8Lead, List.foldl, if_pos (show 0xC0 + c.toNat / 0x40 < 0xE0 by omega)]
        omega
      rw [hacc, Char.ofNat_toNat]
      cases utf8DecodeAux f bs <;> rfl
    · by_cases h3 : c.toNat < 0x10000
      · rw [if_neg h1, if_neg h2, if_pos h3]
        show utf8DecodeAux (f + 1) ((0xE0 + c.toNat / 0x1000)
          :: (0x80 + c.toNat / 0x40 % 0x40) :: (0x80 + c.toNat % 0x40) :: bs) = _
        have hb1 : ¬(0xE0 + c.toNat / 0x1000 < 0xE0) := by omega
        have hb2 : 0xE0 + c.toNat / 0x1000 < 0xF0 := by omega
        have hneed : utf8Need (0xE0 + c.toNat / 0x1000) = 2 := by
          rw [utf8Need, if_neg hb1, if_pos hb2]
        rw [utf8DecodeAux, if_neg (by omega), if_neg (by omega), hneed]
        rw [show List.take 2 ((0x80 + c.toNat / 0x40 % 0x40) :: (0x80 + c.toNat % 0x40) :: bs)
          = [0x80 + c.toNat / 0x40 % 0x40, 0x80 + c.toNat % 0x40] from rfl]
        rw [if_pos ⟨rfl, by simp [isCont]; omega⟩]
        rw [show List.drop 2 ((0x80 + c.toNat / 0x40 % 0x40) :: (0x80 + c.toNat % 0x40) :: bs)
          = bs from rfl]
        have hacc : utf8Acc (0xE0 + c.toNat / 0x1000)
            [0x80 + c.toNat / 0x40 % 0x40, 0x80 + c.toNat % 0x40] = c.toNat := by
          simp only [utf8Acc, utf8Lead, List.foldl, if_neg hb1, if_pos hb2]
          omega
        rw [hacc, Char.ofNat_toNat]
        cases utf8DecodeAux f bs <;> rfl
      · rw [if_neg h1, if_neg h2, if_neg h3]
        show utf8DecodeAux (f + 1) ((0xF0 + c.toNat / 0x40000)
          :: (0x80 + c.toNat / 0x1000 % 0x40) :: (0x80 + c.toNat / 0x40 % 0x40)
          :: (0x80 + c.toNat % 0x40) :: bs) = _
        have hb1 : ¬(0xF0 + c.toNat / 0x40000 < 0xE0) := by omega
        have hb2 : ¬(0xF0 + c.toNat / 0x40000 < 0xF0) := by omega
        have hneed : utf8Need (0xF0 + c.toNat / 0x40000) = 3 := by
          rw [utf8Need, if_neg hb1, if_neg hb2]
        rw [utf8DecodeAux, if_neg (by omega), if_neg (by omega), hneed]
        rw [show List.take 3 ((0x80 + c.toNat / 0x1000 % 0x40)
            :: (0x80 + c.toNat / 0x40 % 0x40) :: (0x80 + c.toNat % 0x40) :: bs)
          = [0x80 + c.toNat / 0x1000 % 0x40, 0x80 + c.toNat / 0x40 % 0x40,
              0x80 + c.toNat % 0x40] from rfl]
        rw [if_pos ⟨rfl, by simp [isCont]; omega⟩]
        rw [show List.drop 3 ((0x80 + c.toNat / 0x1000 % 0x40)
            :: (0x80 + c.toNat / 0x40 % 0x40) :: (0x80 + c.toNat % 0x40) :: bs)
          = bs from rfl]
        have hacc : utf8Acc (0xF0 + c.toNat / 0x40000)
            [0x80 + c.toNat / 0x1000 % 0x40, 0x80 + c.toNat / 0x40 % 0x40,
              0x80 + c.toNat % 0x40] = c.toNat := by
          simp only [utf8Acc, utf8Lead, List.foldl, if_neg hb1, if_neg hb2]
          omega
        rw [hacc, Char.ofNat_toNat]
        cases utf8DecodeAux f bs <;> rfl

theorem utf8DecodeAux_flatMap (s : Str) :
    ∀ f, s.length ≤ f → utf8DecodeAux f (s.flatMap utf8Bytes) = some s := by
  induction s with
  | nil => intro f _; cases f <;> rfl
  | cons c rest ih =>
    intro f hf
    obtain ⟨g, rfl⟩ : ∃ g, f = g + 1 := by
      cases f with
      | zero => simp at hf
      | succ g => exact ⟨g, rfl⟩
    rw [List.flatMap_cons, utf8DecodeAux_encode_cons,
      ih g (by simp at hf; omega)]
    rfl

theorem utf8Decode_flatMap (s : Str) : utf8Decode (s.flatMap utf8Bytes) = some s := by
  have hlen : s.length ≤ (s.flatMap utf8Bytes).length := by
    induction s with
    | nil => simp
    | cons c rest ih =>
      simp only [List.flatMap_cons, List.length_append, List.length_cons]
      have := utf8Bytes_length_pos c
      omega
  exact utf8DecodeAux_flatMap s _ hlen

theorem percentDecodeAux_ne (f : Nat) (c : Char) (rest : Str) (hc : c ≠ '%') :
    percentDecodeAux (f + 1) (c :: rest) =
      (percentDecodeAux f rest).map (utf8Bytes c ++ ·) := by
  rw [percentDecodeAux, if_neg hc]

theorem percentDecodeAux_no_escape (s : Str) (h : ∀ c ∈ s, c ≠ '%') :
    ∀ f, s.length ≤ f → percentDecodeAux f s = some (s.flatMap utf8Bytes) := by
  induction s with
  | nil => intro f _; cases f <;> rfl
  | cons c rest ih =>
    intro f hf
    obtain ⟨g, rfl⟩ : ∃ g, f = g + 1 := by
      cases f with
      | zero => simp at hf
      | succ g => exact ⟨g, rfl⟩
    have hc : c ≠ '%' := h c (List.mem_cons_self c rest)
    rw [percentDecodeAux_ne g c rest hc,
      ih (fun x hx => h x (List.mem_cons_of_mem c hx)) g (by simp at hf; omega)]
    simp [List.flatMap_cons]

theorem percentDecodeBytes_no_escape (s : Str) (h : ∀ c ∈ s, c ≠ '%') :
    percentDecodeBytes s = some (s.flatMap utf8Bytes) :=
  percentDecodeAux_no_escape s h s.length le_rfl

theorem decodeURIComponent_plain (s : Str) (h : uriPlain s = true) :
    decodeURIComponent s = some s := by
  have hne : ∀ c ∈ s, c ≠ '%' := by
    intro c hc
    exact (uriUnreserved_ne c (by
      have := List.all_eq_true.mp h c hc
      simpa using this)).1
  simp [decodeURIComponent, percentDecodeBytes_no_escape s hne, utf8Decode_flatMap,
    Option.bind]

end Coindesk

namespace Coindesk

/-! ### Endpoint builder (CoindeskAPIClient, src/src/coindesk/client.js) -/

/-- `_getEncodedParams(params)`: percent-encode each key/value pair as
`key=value` and join the pairs with `&` (JavaScript object key order is
insertion order, modelled by the list order). -/
def getEncodedParams (params : List (Str × Str)) : Str :=
  joinSep ['&'] (params.map fun p =>
    encodeURIComponent p.1 ++ '=' :: encodeURIComponent p.2)

/-- The API endpoint produced by `_constructApiEndpoint` / `_getParsedUrl`:
the URL path part and the query parameters carried by the URL object. -/
structure ApiEndpoint where
  path : Str
  queryParams : List (Str × Str)
  deriving Repr, DecidableEq

/-- The encoded query string of the endpoint. -/
def ApiEndpoint.query (e : ApiEndpoint) : Str := getEncodedParams e.queryParams

/-- The full URL string: `?` and the query string are appended only when the
encoded query string is non-empty. -/
def ApiEndpoint.href (e : ApiEndpoint) : Str :=
  e.path ++ (if e.query = [] then [] else '?' :: e.query)

/-- `_constructApiEndpoint(dataType, params)`: resolve the resource for the
data type (empty for a null data type); for `currentprice`, splice a
non-empty `currency` parameter into the resource filename via
`resource.split('.').join('/CUR.')` and delete the `currency` key from the
params; then concatenate the cleaned base path, `/` and the resource, and
attach the remaining params as the query. -/
def constructApiEndpoint (dataType : Option Str) (params : List (Str × Str)) :
    ApiEndpoint :=
  let resource := match dataType with
    | some dt => API_ENDPOINTS dt
    | none => []
  let resourceParams :=
    if dataType = some API_CURRENTPRICE_DATA_TYPE then
      let currency := match params.find? (fun p => p.1 = ("currency").toList) with
        | some p => p.2
        | none => []
      let resource := if currency ≠ [] then
          joinSep ('/' :: currency ++ ['.']) (splitOnChar '.' resource)
        else resource
      (resource, params.filter (fun p => p.1 ≠ ("currency").toList))
    else (resource, params)
  ⟨apiPathBase ++ '/' :: resourceParams.1, resourceParams.2⟩

/-- Query-string decoding, following the specification's words: split the
query string on `&`, split each part at the first `=`, and
percent-decode keys and values.  (This is the specification-side definition
used to state that decoding the built query reconstructs the parameters.) -/
def decodePair (part : Str) : Option (Str × Str) :=
  match splitFirst '=' part with
  | some (k, v) =>
    Option.bind (decodeURIComponent k) fun dk =>
    Option.bind (decodeURIComponent v) fun dv =>
    some (dk, dv)
  | none => none

def decodeQuerySpec (q : Str) : Option (List (Str × Str)) :=
  if q = [] then some []
  else (splitOnChar '&' q).mapM decodePair

theorem encodedPair_ne_nil (k v : Str) : k ++ '=' :: v ≠ [] := by
  cases k <;> simp

theorem encodedPair_no_amp (k v : Str) (hk : uriPlain k = true) (hv : uriPlain v = true) :
    ∀ c ∈ k ++ '=' :: v, c ≠ '&' := by
  intro c hc
  rcases List.mem_append.mp hc with h | h
  · exact (uriUnreserved_ne c (List.all_eq_true.mp hk c h)).2.1
  · rcases List.mem_cons.mp h with rfl | h
    · decide
    · exact (uriUnreserved_ne c (List.all_eq_true.mp hv c h)).2.1

theorem decodePair_encoded (k v : Str) (hk : uriPlain k = true) (hv : uriPlain v = true) :
    decodePair (k ++ '=' :: v) = some (k, v) := by
  have hkeq : ∀ c ∈ k, c ≠ '=' := fun c hc =>
    (uriUnreserved_ne c (List.all_eq_true.mp hk c hc)).2.2
  rw [decodePair, splitFirst_append '=' k v hkeq]
  show (Option.bind (decodeURIComponent k) fun dk =>
    Option.bind (decodeURIComponent v) fun dv => some (dk, dv)) = some (k, v)
  rw [decodeURIComponent_plain k hk, decodeURIComponent_plain v hv]
  rfl

theorem getEncodedParams_cons_ne_nil (p : Str × Str) (rest : List (Str × Str)) :
    getEncodedParams (p :: rest) ≠ [] := by
  rcases rest with _ | ⟨q, rest⟩
  · simp only [getEncodedParams, List.map_cons, List.map_nil, joinSep]
    exact encodedPair_ne_nil (encodeURIComponent p.1) (encodeURIComponent p.2)
  · simp only [getEncodedParams, List.map_cons, joinSep]
    intro hcontra
    have hlen := congrArg List.length hcontra
    simp [List.length_append] at hlen

/-- Decoding the query string built by `_getEncodedParams` from parameters
whose keys and values consist of unreserved characters reconstructs exactly
those parameters. -/
theorem decodeQuerySpec_getEncodedParams (params : List (Str × Str))
    (h : ∀ p ∈ params, uriPlain p.1 = true ∧ uriPlain p.2 = true) :
    decodeQuerySpec (getEncodedParams params) = some params := by
  induction params with
  | nil => rfl
  | cons p rest ih =>
    obtain ⟨hk, hv⟩ := h p (List.mem_cons_self p rest)
    have hkv : encodeURIComponent p.1 = p.1 := encodeURIComponent_plain _ hk
    have hvv : encodeURIComponent p.2 = p.2 := encodeURIComponent_plain _ hv
    rcases rest with _ | ⟨q, rest⟩
    · rw [show getEncodedParams [p] = p.1 ++ '=' :: p.2 from by
        simp [getEncodedParams, joinSep, hkv, hvv]]
      rw [decodeQuerySpec, if_neg (encodedPair_ne_nil p.1 p.2)]
      rw [splitOnChar_no_sep '&' _ (encodedPair_no_amp p.1 p.2 hk hv)]
      simp only [List.mapM_cons, List.mapM_nil]
      rw [decodePair_encoded p.1 p.2 hk hv]
      rfl
    · have hq : getEncodedParams (p :: q :: rest)
          = (p.1 ++ '=' :: p.2) ++ '&' :: getEncodedParams (q :: rest) := by
        simp only [getEncodedParams, List.map_cons, joinSep, hkv, hvv]
        simp [List.append_assoc]
      rw [hq]
      rw [decodeQuerySpec, if_neg (by
        intro hcontra
        have := congrArg List.length hcontra
        simp [List.length_append] at this)]
      rw [splitOnChar_append '&' _ _ (encodedPair_no_amp p.1 p.2 hk hv)]
      simp only [List.mapM_cons]
      rw [decodePair_encoded p.1 p.2 hk hv]
      have hrest := ih (fun x hx => h x (List.mem_cons_of_mem p hx))
      rw [decodeQuerySpec, if_neg (getEncodedParams_cons_ne_nil q rest)] at hrest
      rw [hrest]
      rfl

end Coindesk

namespace Coindesk

theorem constructApiEndpoint_historical (params : List (Str × Str)) :
    constructApiEndpoint (some API_HISTORICAL_DATA_TYPE) params
      = ⟨apiPathBase ++ '/' :: ("historical/close.json").toList, params⟩ := by
  simp only [constructApiEndpoint]
  rw [if_neg (by decide :
    ¬(some API_HISTORICAL_DATA_TYPE = some API_CURRENTPRICE_DATA_TYPE))]
  rfl

theorem constructApiEndpoint_currentprice_currency (c : Str) (hc : c ≠ []) :
    constructApiEndpoint (some API_CURRENTPRICE_DATA_TYPE) [(("currency").toList, c)]
      = ⟨apiPathBase ++ '/' ::
          (("currentprice").toList ++ ('/' :: c ++ ['.'])) ++ ("json").toList, []⟩ := by
  show ApiEndpoint.mk (apiPathBase ++ '/' ::
      (if c ≠ [] then (("currentprice").toList ++ ('/' :: c ++ ['.'])) ++ ("json").toList
       else ("currentprice.json").toList)) [] = _
  rw [if_pos hc]
  simp [List.append_assoc]

theorem constructApiEndpoint_currentprice_plain :
    constructApiEndpoint (some API_CURRENTPRICE_DATA_TYPE) []
      = ⟨apiPathBase ++ '/' :: ("currentprice.json").toList, []⟩ := by
  decide

theorem historical_key_plain (k : Str) (hk : k ∈ VALID_HISTORICAL_PARAMS) :
    uriPlain k = true := by
  simp only [VALID_HISTORICAL_PARAMS, List.mem_cons, List.mem_singleton,
    List.not_mem_nil, or_false] at hk
  rcases hk with rfl | rfl | rfl | rfl | rfl <;> decide

/-- Claim C4: for every valid data type and whitelisted parameter mapping,
the endpoint path ends with the resource file configured for that data type
and decoding the query string reconstructs exactly the supplied parameters;
for `currentprice` with a currency parameter, the currency code is spliced
into the resource filename immediately before the extension
(`currentprice.json` becomes `currentprice/CUR.json`) and the currency key
does not appear in the query string. -/
theorem endpoint_construction :
    (∀ params : List (Str × Str),
      (∀ p ∈ params, p.1 ∈ VALID_HISTORICAL_PARAMS ∧ uriPlain p.2 = true) →
      (∃ pre, (constructApiEndpoint (some API_HISTORICAL_DATA_TYPE) params).path
          = pre ++ ("historical/close.json").toList)
      ∧ decodeQuerySpec
          (constructApiEndpoint (some API_HISTORICAL_DATA_TYPE) params).query
          = some params)
    ∧ (∀ c : Str, c ≠ [] →
      (∃ pre, (constructApiEndpoint (some API_CURRENTPRICE_DATA_TYPE)
            [(("currency").toList, c)]).path
          = pre ++ (("currentprice/").toList ++ c ++ (".json").toList))
      ∧ (constructApiEndpoint (some API_CURRENTPRICE_DATA_TYPE)
          [(("currency").toList, c)]).queryParams = []
      ∧ (constructApiEndpoint (some API_CURRENTPRICE_DATA_TYPE)
          [(("currency").toList, c)]).query = [])
    ∧ ((∃ pre, (constructApiEndpoint (some API_CURRENTPRICE_DATA_TYPE) []).path
          = pre ++ ("currentprice.json").toList)
      ∧ (constructApiEndpoint (some API_CURRENTPRICE_DATA_TYPE) []).query = []) := by
  refine ⟨?_, ?_, ?_⟩
  · intro params h
    rw [constructApiEndpoint_historical params]
    constructor
    · exact ⟨apiPathBase ++ ['/'], by simp⟩
    · show decodeQuerySpec (getEncodedParams params) = some params
      exact decodeQuerySpec_getEncodedParams params
        (fun p hp => ⟨historical_key_plain p.1 (h p hp).1, (h p hp).2⟩)
  · intro c hc
    rw [constructApiEndpoint_currentprice_currency c hc]
    refine ⟨⟨apiPathBase ++ ['/'], ?_⟩, rfl, rfl⟩
    show apiPathBase ++ '/' ::
        ((("currentprice").toList ++ ('/' :: c ++ ['.'])) ++ ("json").toList)
      = (apiPathBase ++ ['/']) ++ ((("currentprice/").toList ++ c ++ (".json").toList))
    rw [show ("currentprice/").toList = ("currentprice").toList ++ ['/'] from by decide]
    rw [show (".json").toList = '.' :: ("json").toList from by decide]
    simp [List.append_assoc]
  · rw [constructApiEndpoint_currentprice_plain]
    exact ⟨⟨apiPathBase ++ ['/'], by simp⟩, rfl⟩

theorem endpoint_construction_witness :
    decodeQuerySpec (constructApiEndpoint (some API_HISTORICAL_DATA_TYPE)
        [(("index").toList, ("USD").toList), (("start").toList, ("2021-01-01").toList)]).query
      = some [(("index").toList, ("USD").toList), (("start").toList, ("2021-01-01").toList)]
    ∧ (constructApiEndpoint (some API_CURRENTPRICE_DATA_TYPE)
        [(("currency").toList, ("EUR").toList)]).queryParams = [] := by
  constructor
  · exact (endpoint_construction.1
      [(("index").toList, ("USD").toList), (("start").toList, ("2021-01-01").toList)]
      (by decide)).2
  · exact (endpoint_construction.2.1 ("EUR").toList (by decide)).2.1

end Coindesk

namespace Coindesk

/-! ### `validateUrl` (src/src/coindesk/utils.js)

`validateUrl` tests the url against the regular expression
`(?:([^:\/?#]+):)?(?:\/\/([^\/?#]*))?([^?#]*)(?:\?([^#]*))?(?:#(.*))?`
(the RFC 3986 appendix-B pattern without anchors) and throws only when
`match` returns null.  The pattern is compiled below into the equivalent
deterministic matcher: each optional group either consumes its greedy run
or matches empty. -/

/-- The five capture groups of the URL pattern. -/
structure UrlParts where
  scheme : Option Str
  authority : Option Str
  path : Str
  query : Option Str
  fragment : Option Str
  deriving Repr, DecidableEq

/-- `(?:([^:\/?#]+):)?`: a non-empty run free of `:/?#` followed by `:`,
or nothing. -/
def matchScheme (s : Str) : Option Str × Str :=
  match s.takeWhile (fun c => !(c = ':' ∨ c = '/' ∨ c = '?' ∨ c = '#')),
      s.dropWhile (fun c => !(c = ':' ∨ c = '/' ∨ c = '?' ∨ c = '#')) with
  | c :: cs, ':' :: rest => (some (c :: cs), rest)
  | _, _ => (none, s)

/-- `(?:\/\/([^\/?#]*))?`: `//` followed by a run free of `/?#`, or nothing. -/
def matchAuthority (r : Str) : Option Str × Str :=
  match r with
  | '/' :: '/' :: rest =>
    (some (rest.takeWhile fun c => !(c = '/' ∨ c = '?' ∨ c = '#')),
      rest.dropWhile fun c => !(c = '/' ∨ c = '?' ∨ c = '#'))
  | _ => (none, r)

/-- `([^?#]*)`: the greedy run free of `?#`. -/
def matchPath (r : Str) : Str × Str :=
  (r.takeWhile fun c => !(c = '?' ∨ c = '#'),
    r.dropWhile fun c => !(c = '?' ∨ c = '#'))

/-- `(?:\?([^#]*))?`: `?` followed by a run free of `#`, or nothing. -/
def matchQuery (r : Str) : Option Str × Str :=
  match r with
  | '?' :: rest => (some (rest.takeWhile (· ≠ '#')), rest.dropWhile (· ≠ '#'))
  | _ => (none, r)

/-- `(?:#(.*))?`: `#` followed by the rest, or nothing. -/
def matchFragment (r : Str) : Option Str × Str :=
  match r with
  | '#' :: rest => (some rest, [])
  | _ => (none, r)

/-- `url.match(regex)`: the unanchored match at position 0; `none` models a
null result (the regex failing on every starting position). -/
def urlRegexMatch (s : Str) : Option UrlParts :=
  let (scheme, r1) := matchScheme s
  let (auth, r2) := matchAuthority r1
  let (path, r3) := matchPath r2
  let (query, r4) := matchQuery r3
  let (frag, r5) := matchFragment r4
  if r5 = [] then some ⟨scheme, auth, path, query, frag⟩ else none

/-- `validateUrl(url)`: throw a CoindeskAPIClientError when the match is
null. -/
def validateUrl (url : Str) : Except JsErr Unit :=
  match urlRegexMatch url with
  | some _ => .ok ()
  | none => .error (.clientError (url ++ (" is not a valid pattern for an url.").toList))

theorem dropWhile_head_false (p : Char → Bool) (l : Str) :
    ∀ c t, l.dropWhile p = c :: t → p c = false := by
  induction l with
  | nil => intro c t h; cases h
  | cons a l ih =>
    intro c t h
    by_cases hp : p a
    · rw [List.dropWhile_cons_of_pos hp] at h
      exact ih c t h
    · rw [List.dropWhile_cons_of_neg hp] at h
      cases h
      exact Bool.not_eq_true _ ▸ (by simpa using hp)

theorem matchFragment_after_query (r3 : Str)
    (h : ∀ c t, r3 = c :: t → c = '?' ∨ c = '#') :
    (matchFragment (matchQuery r3).2).2 = [] := by
  rcases hr3 : r3 with _ | ⟨c, t⟩
  · rfl
  · rcases h c t hr3 with rfl | rfl
    · show (matchFragment (t.dropWhile (· ≠ '#'))).2 = []
      rcases hq : t.dropWhile (· ≠ '#') with _ | ⟨c2, t2⟩
      · rfl
      · have hc2 := dropWhile_head_false (· ≠ '#') t c2 t2 hq
        have : c2 = '#' := by simpa using hc2
        subst this
        rfl
    · rfl

/-- The URL pattern matches every string: the optional groups and the
`[^?#]*` path can always match, so `match` never returns null. -/
theorem urlRegexMatch_total (s : Str) : ∃ parts, urlRegexMatch s = some parts := by
  unfold urlRegexMatch
  rcases hs : matchScheme s with ⟨scheme, r1⟩
  rcases ha : matchAuthority r1 with ⟨auth, r2⟩
  have hpath : ∀ c t, (matchPath r2).2 = c :: t → c = '?' ∨ c = '#' := by
    intro c t h
    have := dropWhile_head_false (fun c => !(c = '?' ∨ c = '#')) r2 c t h
    simp at this
    tauto
  rcases hp : matchPath r2 with ⟨path, r3⟩
  have hr3 : ∀ c t, r3 = c :: t → c = '?' ∨ c = '#' := by
    intro c t h
    apply hpath c t
    rw [hp]
    exact h
  rcases hq : matchQuery r3 with ⟨query, r4⟩
  rcases hf : matchFragment r4 with ⟨frag, r5⟩
  have h5 : r5 = [] := by
    have := matchFragment_after_query r3 hr3
    rw [hq] at this
    rw [hf] at this
    exact this
  simp [hs, ha, hp, hq, hf, h5]

/-- Claim C9 (amended): `validateUrl` never throws — the pattern matches
every string, so no malformed input is rejected. -/
theorem validateUrl_never_throws (s : Str) : validateUrl s = .ok () := by
  obtain ⟨parts, hparts⟩ := urlRegexMatch_total s
  rw [validateUrl, hparts]

/-- Claim C9 (counterexample): the empty string — which has no scheme, host
or path — is accepted by `validateUrl` instead of failing. -/
theorem validateUrl_accepts_empty : validateUrl [] = .ok () := rfl

end Coindesk

namespace Coindesk

/-! ### `validateDate` (src/src/coindesk/utils.js)

The function is declared as `validateDate = (params, flag) => { const date =
params[flag]; … }`, but both call sites in `validateParams` invoke it with a
single argument — `validateDate(params[settings.START_PARAM])` — so `params`
is bound to the date string and `flag` to `undefined`.  The model below
embeds enough of JavaScript's runtime semantics (property access on
primitives and objects, the `Date(y, m, d)` rollover and `toISOString`) to
evaluate both the actual one-argument invocation and the documented
two-argument form. -/

/-- JavaScript values reaching `validateDate`: `undefined`, strings, and
plain objects (insertion-ordered own properties). -/
inductive JSVal where
  | jsUndefined
  | str (s : Str)
  | obj (fields : List (Str × JSVal))

/-- `ToPropertyKey`: the string a value turns into when used as a property
key (`undefined` becomes the key `"undefined"`). -/
def jsPropertyKey : JSVal → Str
  | .jsUndefined => ("undefined").toList
  | .str s => s
  | .obj _ => ("[object Object]").toList

/-- Property lookup on the fields of an object. -/
def lookupField (fields : List (Str × JSVal)) (key : Str) : Option JSVal :=
  match fields.find? (fun f => f.1 = key) with
  | some f => some f.2
  | none => none

/-- `receiver[key]`: on a string primitive only `length` and the index
properties exist (every other key, in particular `"undefined"`, yields
`undefined`); on an object the own property is looked up. -/
def jsGetProp (receiver : JSVal) (key : JSVal) : JSVal :=
  match receiver with
  | .jsUndefined => .jsUndefined
  | .str _ => .jsUndefined
  | .obj fields =>
    match lookupField fields (jsPropertyKey key) with
    | some v => v
    | none => .jsUndefined

/-- `receiver[key] = v`: objects update or append the own property;
assignment to a primitive is a silent no-op (sloppy mode). -/
def jsSetProp (receiver : JSVal) (key : JSVal) (v : JSVal) : JSVal :=
  match receiver with
  | .obj fields =>
    .obj (if (fields.find? (fun f => f.1 = jsPropertyKey key)).isSome then
      fields.map (fun f => if f.1 = jsPropertyKey key then (f.1, v) else f)
    else fields ++ [(jsPropertyKey key, v)])
  | other => other

/-- `${flag}` interpolation in the error message. -/
def jsTemplate : JSVal → Str
  | .jsUndefined => ("undefined").toList
  | .str s => s
  | .obj _ => ("[object Object]").toList

/-- Digits of `\d`. -/
def isDigit (c : Char) : Bool := 48 ≤ c.toNat ∧ c.toNat ≤ 57

/-- Numeric value of a digit run. -/
def digitsVal (s : Str) : Int :=
  s.foldl (fun acc c => acc * 10 + (Int.ofNat c.toNat - 48)) 0

/-- Match of `^(\d{4})-(\d{1,2})-(\d{1,2})$`, returning the numeric values
of the three capture groups. -/
def dateRegexMatch (s : Str) : Option (Int × Int × Int) :=
  match s with
  | y1 :: y2 :: y3 :: y4 :: '-' :: rest =>
    if isDigit y1 ∧ isDigit y2 ∧ isDigit y3 ∧ isDigit y4 then
      match rest with
      | m1 :: m2 :: '-' :: rest2 =>
        if isDigit m1 ∧ isDigit m2 then
          if rest2.all isDigit ∧ (rest2.length = 1 ∨ rest2.length = 2) then
            some (digitsVal [y1, y2, y3, y4], digitsVal [m1, m2], digitsVal rest2)
          else none
        else none
      | m1 :: '-' :: rest2 =>
        if isDigit m1 then
          if rest2.all isDigit ∧ (rest2.length = 1 ∨ rest2.length = 2) then
            some (digitsVal [y1, y2, y3, y4], digitsVal [m1], digitsVal rest2)
          else none
        else none
      | _ => none
    else none
  | _ => none

/-- Days since 1970-01-01 of a civil date (Gregorian, proleptic). -/
def daysFromCivil (y m d : Int) : Int :=
  let y := y - (if m ≤ 2 then 1 else 0)
  let era := y.fdiv 400
  let yoe := y - era * 400
  let mp := m + (if m > 2 then -3 else 9)
  let doy := (153 * mp + 2).fdiv 5 + d - 1
  let doe := yoe * 365 + yoe.fdiv 4 - yoe.fdiv 100 + doy
  era * 146097 + doe - 719468

/-- Civil date of a count of days since 1970-01-01. -/
def civilFromDays (z0 : Int) : Int × Int × Int :=
  let z := z0 + 719468
  let era := z.fdiv 146097
  let doe := z - era * 146097
  let yoe := (doe - doe.fdiv 1460 + doe.fdiv 36524 - doe.fdiv 146096).fdiv 365
  let y := yoe + era * 400
  let doy := doe - (365 * yoe + yoe.fdiv 4 - yoe.fdiv 100)
  let mp := (5 * doy + 2).fdiv 153
  let d := doy - (153 * mp + 2).fdiv 5 + 1
  let m := mp + (if mp < 10 then 3 else -9)
  (y + (if m ≤ 2 then 1 else 0), m, d)

/-- Left-pad a digit string with zeros. -/
def padZeros (width : Nat) (s : Str) : Str :=
  List.replicate (width - s.length) '0' ++ s

/-- Decimal digits of a non-negative integer. -/
def natDigits (n : Nat) : Str := (toString n).toList

/-- `new Date(y, monthIndex, d).toISOString().slice(0, indexOf('T'))` in a
UTC environment: the constructor normalizes the month index into the year
and rolls extra days over into the following months, and the ISO date part
is `YYYY-MM-DD`. -/
def jsDateToISODate (y monthIndex d : Int) : Str :=
  let total := y * 12 + monthIndex
  let yy := total.fdiv 12
  let mm := total.fmod 12 + 1
  let z := daysFromCivil yy mm 1 + (d - 1)
  let c := civilFromDays z
  padZeros 4 (natDigits c.1.toNat) ++ '-' :: padZeros 2 (natDigits c.2.1.toNat)
    ++ '-' :: padZeros 2 (natDigits c.2.2.toNat)

/-- `validateDate(params, flag)` exactly as written in the source: read
`params[flag]`, match it against the date pattern, and on a match store the
normalized ISO date back into `params[flag]`; a pattern failure throws a
CoindeskAPIClientError.  When `params[flag]` is not a string — in
particular `undefined`, which is what the one-argument call sites produce —
`date.match(...)` raises a TypeError. -/
def validateDate (params : JSVal) (flag : JSVal) : Except JsErr JSVal :=
  match jsGetProp params flag with
  | .str s =>
    match dateRegexMatch s with
    | some (y, m, d) =>
      .ok (jsSetProp params flag (.str (jsDateToISODate y (m - 1) d)))
    | none =>
      .error (.clientError (jsTemplate flag ++ (" must fullfill the pattern YYYY-MM-DD.").toList))
  | .jsUndefined =>
    .error (.typeError (("Cannot read properties of undefined (reading 'match')").toList))
  | .obj _ =>
    .error (.typeError (("date.match is not a function").toList))

/-- `validateDate` as invoked by `validateParams` for the historical
`start`/`end` parameters: a single argument, so `flag` is `undefined`. -/
def validateDateAsInvoked (value : JSVal) : Except JsErr JSVal :=
  validateDate value .jsUndefined

end Coindesk

namespace Coindesk

/-- Claim C5: date validation as invoked for the historical `start`/`end`
parameters never validates anything — the call sites pass the date string
as `params` and leave `flag` undefined, so `params[flag]` is `undefined`
and `date.match(...)` raises a TypeError for every input, valid or not;
`"2021-2-1"` is not normalized and `"2021-02-30"` does not fail with a
ValidationError.  Even under the documented two-argument call, JavaScript's
`Date` rolls `2021-02-30` over to `2021-03-02` instead of rejecting the
non-existent date. -/
theorem validateDate_as_invoked :
    (∀ s : Str, validateDateAsInvoked (.str s)
      = .error (.typeError (("Cannot read properties of undefined (reading 'match')").toList)))
    ∧ validateDateAsInvoked (.str ("2021-2-1").toList)
      = .error (.typeError (("Cannot read properties of undefined (reading 'match')").toList))
    ∧ validateDateAsInvoked (.str ("2021-02-30").toList)
      = .error (.typeError (("Cannot read properties of undefined (reading 'match')").toList))
    ∧ validateDate (.obj [(("start").toList, .str ("2021-02-30").toList)])
        (.str ("start").toList)
      = .ok (.obj [(("start").toList, .str ("2021-03-02").toList)]) :=
  ⟨fun _ => rfl, rfl, rfl, rfl⟩

end Coindesk

namespace Coindesk

/-! ### Parameter validation and the mutable client endpoint
(CoindeskAPIClient, src/src/coindesk/client.js) -/

/-- `validateDataType(dataType)`: anything outside VALID_DATA_TYPES
(including null) throws. -/
def validateDataType (dataType : Option Str) : Except JsErr (Option Str) :=
  if (match dataType with
      | some dt => VALID_DATA_TYPES.contains dt
      | none => false) then .ok dataType
  else .error (.clientError (("Data type must be currentprice, historical.").toList))

/-- `validateIndex(index)`. -/
def validateIndex (index : Str) : Except JsErr Unit :=
  if VALID_INDEX.contains index then .ok ()
  else .error (.clientError (("Index must be USD, CNY.").toList))

/-- `validateCurrency(currency)`; the supported-currency codes come from
the external currencies.json, passed in as `allowed`. -/
def validateCurrency (allowed : List Str) (currency : Str) : Except JsErr Unit :=
  if allowed.contains currency then .ok ()
  else .error (.clientError (("Unvalid provided currency ").toList ++ currency ++ (".").toList))

/-- `validateFor(forParam)`. -/
def validateForParam (forParam : Str) : Except JsErr Unit :=
  if VALID_FOR.contains forParam then .ok ()
  else .error (.clientError (("For must be yesterday.").toList))

/-- Run a check on the value of `key` when the mapping owns that key. -/
def checkParam (params : List (Str × Str)) (key : Str)
    (check : Str → Except JsErr Unit) : Except JsErr Unit :=
  match params.find? (fun p => p.1 = key) with
  | some p => check p.2
  | none => .ok ()

/-- `validateParams(dataType, params)`: reject any key outside the
whitelist of the data type, then validate the known parameters; the
historical `start`/`end` dates go through the one-argument `validateDate`
call (which raises a TypeError on any value, see `validateDateAsInvoked`). -/
def validateParams (allowed : List Str) (dataType : Option Str)
    (params : List (Str × Str)) : Except JsErr (List (Str × Str)) :=
  if dataType = some API_CURRENTPRICE_DATA_TYPE then
    match params.find? (fun p => ¬ VALID_CURRENTPRICE_PARAMS.contains p.1) with
    | some p => .error (.clientError (("Unvalid param ").toList ++ p.1
        ++ (" for currentprice data type.").toList))
    | none => do
      checkParam params (("currency").toList) (validateCurrency allowed)
      .ok params
  else if dataType = some API_HISTORICAL_DATA_TYPE then
    match params.find? (fun p => ¬ VALID_HISTORICAL_PARAMS.contains p.1) with
    | some p => .error (.clientError (("Unvalid param ").toList ++ p.1
        ++ (" for historical data type.").toList))
    | none => do
      checkParam params (("index").toList) validateIndex
      checkParam params (("currency").toList) (validateCurrency allowed)
      checkParam params (("start").toList)
        (fun v => (validateDateAsInvoked (.str v)).map (fun _ => ()))
      checkParam params (("end").toList)
        (fun v => (validateDateAsInvoked (.str v)).map (fun _ => ()))
      checkParam params (("for").toList) validateForParam
      .ok params
  else .error (.clientError (("Unable to validate params for data type.").toList))

/-- `URLSearchParams.set(key, value)`: replace the value in place when the
key exists, append otherwise. -/
def searchParamsSet (sp : List (Str × Str)) (key v : Str) : List (Str × Str) :=
  if (sp.find? (fun p => p.1 = key)).isSome then
    sp.map (fun p => if p.1 = key then (p.1, v) else p)
  else sp ++ [(key, v)]

/-- `Object.keys(params).forEach(key => searchParams.set(key, params[key]))`
— the body of the `params` setter after validation.  Note that it only sets
the given keys: it never deletes the parameters already present. -/
def searchParamsSetMany (sp : List (Str × Str)) (ps : List (Str × Str)) :
    List (Str × Str) :=
  ps.foldl (fun acc p => searchParamsSet acc p.1 p.2) sp

/-- The mutable client state: the private `dataType` and the URL object
(`apiEndpoint`), itself holding a path and search parameters. -/
structure ClientState where
  dataType : Option Str
  endpointPath : Str
  searchParams : List (Str × Str)
  deriving Repr, DecidableEq

/-- The `params` getter: an object built from the search parameters (whose
keys are distinct in every state the client constructs). -/
def clientParams (st : ClientState) : List (Str × Str) := st.searchParams

/-- `CoindeskAPIClient.start(dataType, params)` restricted to the endpoint
state: validate the data type and the params, then construct the endpoint. -/
def clientStart (allowed : List Str) (dataType : Option Str)
    (params : List (Str × Str)) : Except JsErr ClientState :=
  match validateDataType dataType with
  | .error e => .error e
  | .ok dt =>
    match validateParams allowed dt params with
    | .error e => .error e
    | .ok ps =>
      let e := constructApiEndpoint dt ps
      .ok ⟨dt, e.path, e.queryParams⟩

/-- The `dataType` setter: validate, store the new data type, run
`this.params = {}` when switching to currentprice (which validates the
empty mapping and then sets nothing), and rebuild the endpoint from the
current `this.params`. -/
def setDataType (allowed : List Str) (st : ClientState) (newDataType : Option Str) :
    Except JsErr ClientState :=
  match validateDataType newDataType with
  | .error e => .error e
  | .ok dt =>
    let st1 : ClientState := { st with dataType := dt }
    let step : Except JsErr ClientState :=
      if dt = some API_CURRENTPRICE_DATA_TYPE then
        match validateParams allowed st1.dataType [] with
        | .error e => .error e
        | .ok ps =>
          .ok { st1 with searchParams := searchParamsSetMany st1.searchParams ps }
      else .ok st1
    match step with
    | .error e => .error e
    | .ok st2 =>
      let e := constructApiEndpoint st2.dataType (clientParams st2)
      .ok { st2 with endpointPath := e.path, searchParams := e.queryParams }

/-- Claim C7: assigning `dataType = "currentprice"` does not reset the
query parameters.  The setter runs `this.params = {}`, but the `params`
setter only sets the keys of the supplied object — the empty object sets
nothing and deletes nothing — so a previously stored parameter survives and
is even carried into the freshly constructed endpoint. -/
theorem setDataType_keeps_old_params :
    clientStart [] (some API_HISTORICAL_DATA_TYPE)
        [(("index").toList, ("USD").toList)]
      = .ok ⟨some API_HISTORICAL_DATA_TYPE,
          apiPathBase ++ '/' :: ("historical/close.json").toList,
          [(("index").toList, ("USD").toList)]⟩
    ∧ setDataType []
        ⟨some API_HISTORICAL_DATA_TYPE,
          apiPathBase ++ '/' :: ("historical/close.json").toList,
          [(("index").toList, ("USD").toList)]⟩
        (some API_CURRENTPRICE_DATA_TYPE)
      = .ok ⟨some API_CURRENTPRICE_DATA_TYPE,
          apiPathBase ++ '/' :: ("currentprice.json").toList,
          [(("index").toList, ("USD").toList)]⟩
    ∧ clientParams ⟨some API_CURRENTPRICE_DATA_TYPE,
          apiPathBase ++ '/' :: ("currentprice.json").toList,
          [(("index").toList, ("USD").toList)]⟩
      ≠ [] := by
  refine ⟨rfl, rfl, by decide⟩

end Coindesk

namespace Coindesk

/-! ### Supported currencies (CoindeskAPIClient.getSupportedCurrencies,
src/src/coindesk/client.js; validateSupportedCurrencies /
updateCurrenciesSettings, src/src/coindesk/utils.js)

The local currencies.json file and the network are external collaborators:
the local list is a parameter, the fetch outcome and the outcomes of the
`readFile`/`writeFile` calls are oracles. -/

/-- A record of the SUPPORTED_CURRENCIES array: `{currency, country}`. -/
structure CurrencyRec where
  currency : Str
  country : Str
  deriving Repr, DecidableEq

/-- Outcomes of the `readFile('../currencies.json')` (already JSON-parsed
into its SUPPORTED_CURRENCIES array) and `writeFile` calls performed by
`updateCurrenciesSettings`. -/
structure FsOracle where
  readResult : Except Str (List CurrencyRec)
  writeResult : Except Str Unit

/-- `updateCurrenciesSettings(currencies)`: read and parse the settings
file, replace its SUPPORTED_CURRENCIES with the fetched list, and write it
back; a read or write failure is rethrown as a CoindeskAPIClientError. -/
def updateCurrenciesSettings (fs : FsOracle) (_currencies : List CurrencyRec) :
    Except JsErr Unit :=
  match fs.readResult with
  | .error e =>
    .error (.clientError (("Unable to read settings file - ").toList ++ e ++ (".").toList))
  | .ok _ =>
    match fs.writeResult with
    | .error e =>
      .error (.clientError (("Unable to write settings file - ").toList ++ e ++ (".").toList))
    | .ok () => .ok ()

/-- `validateSupportedCurrencies(currencies)`: when any fetched currency
code is missing from the local list, refresh the settings file with the
fetched list (the `for … of` loop returns at the first missing code). -/
def validateSupportedCurrencies (localList : List CurrencyRec) (fs : FsOracle)
    (currencies : List CurrencyRec) : Except JsErr Unit :=
  let validCurrencies := (currencies.map (fun c => c.currency)).dedup
  let allowedCurrencies := localList.map (fun c => c.currency)
  match validCurrencies.find? (fun c => ¬ allowedCurrencies.contains c) with
  | some _ => updateCurrenciesSettings fs currencies
  | none => .ok ()

/-- `getSupportedCurrencies()`: fetch the live list (failures are caught
and logged, leaving `currencies` null, in which case the — nonexistent —
`settings.SUPPORTED_CURRENCIES` is returned, modelled as `none`); a fetched
list is then passed to `validateSupportedCurrencies`, whose errors are NOT
caught and so propagate to the caller. -/
def getSupportedCurrencies (localList : List CurrencyRec)
    (fetch : Except Str (List CurrencyRec)) (fs : FsOracle) :
    Except JsErr (Option (List CurrencyRec)) :=
  match fetch with
  | .error _ => .ok none
  | .ok currencies =>
    match validateSupportedCurrencies localList fs currencies with
    | .error e => .error e
    | .ok () => .ok (some currencies)

/-- Claim C6 (counterexample): with a fetched list containing the new code
`VTC` and a failing settings-file read, `getSupportedCurrencies` throws the
persistence error instead of returning the freshly fetched list. -/
theorem getSupportedCurrencies_propagates_failure :
    getSupportedCurrencies
        [⟨("USD").toList, ("United States Dollar").toList⟩]
        (.ok [⟨("VTC").toList, ("Vertcoin").toList⟩])
        ⟨.error ("ENOENT").toList, .ok ()⟩
      = .error (.clientError (("Unable to read settings file - ENOENT.").toList))
    ∧ getSupportedCurrencies
        [⟨("USD").toList, ("United States Dollar").toList⟩]
        (.ok [⟨("VTC").toList, ("Vertcoin").toList⟩])
        ⟨.error ("ENOENT").toList, .ok ()⟩
      ≠ .ok (some [⟨("VTC").toList, ("Vertcoin").toList⟩]) := by
  have h1 : getSupportedCurrencies
      [⟨("USD").toList, ("United States Dollar").toList⟩]
      (.ok [⟨("VTC").toList, ("Vertcoin").toList⟩])
      ⟨.error ("ENOENT").toList, .ok ()⟩
    = .error (.clientError (("Unable to read settings file - ENOENT.").toList)) := rfl
  refine ⟨h1, ?_⟩
  rw [h1]
  simp

/-- Claim C6 (amended): for every fetched list containing a currency code
absent from the local list, a persistence failure makes
`getSupportedCurrencies` throw a CoindeskAPIClientError wrapping the file
error — the error propagates instead of the fetched list being returned. -/
theorem getSupportedCurrencies_persistence_error (localList fetched : List CurrencyRec)
    (fs : FsOracle) (e : Str)
    (hmissing : ∃ c ∈ fetched.map (fun r => r.currency),
      c ∉ localList.map (fun r => r.currency)) :
    (fs.readResult = .error e →
      getSupportedCurrencies localList (.ok fetched) fs
        = .error (.clientError (("Unable to read settings file - ").toList ++ e ++ (".").toList)))
    ∧ (∀ doc, fs.readResult = .ok doc → fs.writeResult = .error e →
      getSupportedCurrencies localList (.ok fetched) fs
        = .error (.clientError (("Unable to write settings file - ").toList ++ e ++ (".").toList))) := by
  obtain ⟨c, hc, hnot⟩ := hmissing
  have hfind : ((fetched.map (fun r => r.currency)).dedup.find?
      (fun c => ¬ (localList.map (fun r => r.currency)).contains c)).isSome = true := by
    rw [List.find?_isSome]
    refine ⟨c, List.mem_dedup.mpr hc, ?_⟩
    simp only [decide_eq_true_eq]
    simpa using hnot
  obtain ⟨w, hw⟩ := Option.isSome_iff_exists.mp hfind
  constructor
  · intro hread
    simp only [getSupportedCurrencies, validateSupportedCurrencies, hw,
      updateCurrenciesSettings, hread]
  · intro doc hread hwrite
    simp only [getSupportedCurrencies, validateSupportedCurrencies, hw,
      updateCurrenciesSettings, hread, hwrite]

theorem getSupportedCurrencies_persistence_error_witness :
    getSupportedCurrencies
        [⟨("USD").toList, ("United States Dollar").toList⟩]
        (.ok [⟨("VTC").toList, ("Vertcoin").toList⟩])
        ⟨.ok [⟨("USD").toList, ("United States Dollar").toList⟩], .error ("EACCES").toList⟩
      = .error (.clientError (("Unable to write settings file - EACCES.").toList)) :=
  (getSupportedCurrencies_persistence_error
      [⟨("USD").toList, ("United States Dollar").toList⟩]
      [⟨("VTC").toList, ("Vertcoin").toList⟩]
      ⟨.ok [⟨("USD").toList, ("United States Dollar").toList⟩], .error ("EACCES").toList⟩
      ("EACCES").toList
      ⟨("VTC").toList, by decide⟩).2
    [⟨("USD").toList, ("United States Dollar").toList⟩] rfl rfl

end Coindesk

namespace Coindesk

/-! ### Response parsing (CoindeskAPIHttpResponse, src/src/coindesk/client.js;
schemas from src/src/coindesk/schemas.js)

The schemas are @hapi/joi declarations; `schema.validate(response)` returns
an object with the properties `value` and `error` (the latter `undefined`
on success).  `CoindeskAPIHttpResponse._validate` destructures `errors` —
a property that does not exist — so the error branch is dead code (and
would itself crash: it reads `error.message` with no `error` in scope). -/

/-- JSON values. -/
inductive Json where
  | null
  | bool (b : Bool)
  | num (q : ℚ)
  | str (s : Str)
  | arr (xs : List Json)
  | obj (fields : List (Str × Json))

/-- Own-property lookup in a JSON object. -/
def lookupJson (fields : List (Str × Json)) (k : Str) : Option Json :=
  match fields.find? (fun f => f.1 = k) with
  | some f => some f.2
  | none => none

/-- First error among a list of optional errors (Joi's default
`abortEarly`). -/
def firstErr (es : List (Option Str)) : Option Str := es.findSome? id

/-- `YYYY-MM-DD` with two-digit month and day (the key pattern of the
historical `bpi` block). -/
def datePatternKey (s : Str) : Bool :=
  match s with
  | [y1, y2, y3, y4, '-', m1, m2, '-', d1, d2] =>
    isDigit y1 ∧ isDigit y2 ∧ isDigit y3 ∧ isDigit y4
      ∧ isDigit m1 ∧ isDigit m2 ∧ isDigit d1 ∧ isDigit d2
  | _ => false

/-- An ISO-like date-time string: `YYYY-MM-DD`, alone or followed by a
`T…` time part.  Used to model both `Joi.date()` and `Joi.date().iso()`
(the payloads the client sees use ISO strings). -/
def isoDateLike (s : Str) : Bool :=
  match s with
  | y1 :: y2 :: y3 :: y4 :: '-' :: m1 :: m2 :: '-' :: d1 :: d2 :: rest =>
    isDigit y1 ∧ isDigit y2 ∧ isDigit y3 ∧ isDigit y4
      ∧ isDigit m1 ∧ isDigit m2 ∧ isDigit d1 ∧ isDigit d2
      ∧ (rest = [] ∨ rest.head? = some 'T')
  | _ => false

/-- `Joi.date()` / `Joi.date().iso()` on a JSON value. -/
def joiDateOk : Json → Bool
  | .num _ => true
  | .str s => isoDateLike s
  | _ => false

/-- A required field validated by `check`. -/
def requiredField (fields : List (Str × Json)) (k : Str)
    (check : Json → Option Str) : Option Str :=
  match lookupJson fields k with
  | none => some (k ++ (" is required").toList)
  | some v => check v

/-- `Joi.string()`. -/
def joiString : Json → Option Str
  | .str _ => none
  | _ => some (("must be a string").toList)

/-- `Joi.string().alphanum()`. -/
def joiAlphanum : Json → Option Str
  | .str s => if s.all Char.isAlphanum then none else some (("must only contain alpha-numeric characters").toList)
  | _ => some (("must be a string").toList)

/-- `Joi.number().positive()`. -/
def joiPositiveNumber : Json → Option Str
  | .num q => if 0 < q then none else some (("must be a positive number").toList)
  | _ => some (("must be a number").toList)

/-- `Joi.string().regex(pattern)` for the patterns of the schemas, given as
a boolean test on the string. -/
def joiStringRegex (test : Str → Bool) : Json → Option Str
  | .str s => if test s then none else some (("fails to match the required pattern").toList)
  | _ => some (("must be a string").toList)

/-- The `time` block: `updated` (date), `updatedISO` (ISO date) and, when
`withUk` is set, `updateduk` (string); unknown keys are not allowed. -/
def timeBlock (withUk : Bool) : Json → Option Str
  | .obj tf =>
    firstErr
      [requiredField tf (("updated").toList)
          (fun v => if joiDateOk v then none else some (("updated must be a valid date").toList)),
        requiredField tf (("updatedISO").toList)
          (fun v => if joiDateOk v then none else some (("updatedISO must be in iso format").toList)),
        if withUk then
          requiredField tf (("updateduk").toList) joiString
        else none,
        match tf.find? (fun f => ¬ (f.1 = ("updated").toList ∨ f.1 = ("updatedISO").toList
            ∨ (withUk ∧ f.1 = ("updateduk").toList))) with
        | some f => some (f.1 ++ (" is not allowed").toList)
        | none => none]
  | _ => some (("time must be of type object").toList)

/-- `rate`: `Joi.string().regex(/^[0-9.,]$/)` — literally a single
character of the class, exactly as written in the source. -/
def rateTest (s : Str) : Bool :=
  match s with
  | [c] => isDigit c ∨ c = '.' ∨ c = ','
  | _ => false

/-- A `bpi` currency block of the full currentprice schema:
`code` (anchored regex), `symbol` (`^X|entity$`: starts with the symbol or
ends with the HTML entity), `rate`, `description`, `rate_float`. -/
def currencyBlock (codeTest : Str → Bool) (symbolTest : Str → Bool) : Json → Option Str
  | .obj f =>
    firstErr
      [requiredField f (("code").toList) (joiStringRegex codeTest),
        requiredField f (("symbol").toList) (joiStringRegex symbolTest),
        requiredField f (("rate").toList) (joiStringRegex rateTest),
        requiredField f (("description").toList) joiAlphanum,
        requiredField f (("rate_float").toList) joiPositiveNumber,
        match f.find? (fun x => ¬ (x.1 = ("code").toList ∨ x.1 = ("symbol").toList
            ∨ x.1 = ("rate").toList ∨ x.1 = ("description").toList
            ∨ x.1 = ("rate_float").toList)) with
        | some x => some (x.1 ++ (" is not allowed").toList)
        | none => none]
  | _ => some (("must be of type object").toList)

/-- `^\$|&#36;$`-style symbol test. -/
def symbolTest (sym : Char) (entity : Str) (s : Str) : Bool :=
  s.head? = some sym ∨ entity.isSuffixOf s

/-- The full currentprice schema (time + chartName + disclaimer + fixed
USD/GBP/EUR breakdown; the EUR `code` pattern is `^GBP$` in the source). -/
def currentpriceSchemaValidate (j : Json) : Option Str :=
  match j with
  | .obj fields =>
    firstErr
      [requiredField fields (("time").toList) (timeBlock true),
        requiredField fields (("chartName").toList) joiAlphanum,
        requiredField fields (("disclaimer").toList) joiString,
        requiredField fields (("bpi").toList) (fun bpi =>
          match bpi with
          | .obj bf =>
            firstErr
              [requiredField bf (("USD").toList)
                  (currencyBlock (fun s => s = ("USD").toList) (symbolTest '$' (("&#36;").toList))),
                requiredField bf (("GBP").toList)
                  (currencyBlock (fun s => s = ("GBP").toList) (symbolTest '£' (("&pound;").toList))),
                requiredField bf (("EUR").toList)
                  (currencyBlock (fun s => s = ("GBP").toList) (symbolTest '€' (("&euro;").toList))),
                match bf.find? (fun x => ¬ (x.1 = ("USD").toList ∨ x.1 = ("GBP").toList
                    ∨ x.1 = ("EUR").toList)) with
                | some x => some (x.1 ++ (" is not allowed").toList)
                | none => none]
          | _ => some (("bpi must be of type object").toList)),
        match fields.find? (fun f => ¬ (f.1 = ("time").toList ∨ f.1 = ("chartName").toList
            ∨ f.1 = ("disclaimer").toList ∨ f.1 = ("bpi").toList)) with
        | some f => some (f.1 ++ (" is not allowed").toList)
        | none => none]
  | _ => some (("must be of type object").toList)

/-- A single uppercase letter (the `^[A-Z]$` patterns of the
single-currency schema, exactly as written). -/
def singleUpper (s : Str) : Bool :=
  match s with
  | [c] => 65 ≤ c.toNat ∧ c.toNat ≤ 90
  | _ => false

/-- A `bpi` block of the single-currency schema (no `symbol` field). -/
def currencyBlockNoSymbol (codeTest : Str → Bool) (f : List (Str × Json)) :
    List (Option Str) :=
  [requiredField f (("code").toList) (joiStringRegex codeTest),
    requiredField f (("rate").toList) (joiStringRegex rateTest),
    requiredField f (("description").toList) joiAlphanum,
    requiredField f (("rate_float").toList) joiPositiveNumber]

/-- The `USD` value of the single-currency schema: the USD block whose
object additionally admits keys matching `^[A-Z]$` validated against the
generic block (`.pattern` is chained onto the USD object schema in the
source). -/
def usdPatternBlock (j : Json) : Option Str :=
  match j with
  | .obj f =>
    firstErr
      (currencyBlockNoSymbol (fun s => s = ("USD").toList) f
        ++ [match f.find? (fun x => ¬ (x.1 = ("code").toList ∨ x.1 = ("rate").toList
              ∨ x.1 = ("description").toList ∨ x.1 = ("rate_float").toList
              ∨ singleUpper x.1)) with
            | some x => some (x.1 ++ (" is not allowed").toList)
            | none => none]
        ++ (f.filter (fun x => singleUpper x.1)).map (fun x =>
            match x.2 with
            | .obj g => firstErr (currencyBlockNoSymbol singleUpper g)
            | _ => some (("must be of type object").toList)))
  | _ => some (("must be of type object").toList)

/-- The single-currency currentprice schema. -/
def currentpriceCurrencySchemaValidate (j : Json) : Option Str :=
  match j with
  | .obj fields =>
    firstErr
      [requiredField fields (("time").toList) (timeBlock true),
        requiredField fields (("disclaimer").toList) joiString,
        requiredField fields (("bpi").toList) (fun bpi =>
          match bpi with
          | .obj bf =>
            firstErr
              [match lookupJson bf (("USD").toList) with
                | some v => usdPatternBlock v
                | none => none,
                match bf.find? (fun x => ¬ x.1 = ("USD").toList) with
                | some x => some (x.1 ++ (" is not allowed").toList)
                | none => none]
          | _ => some (("bpi must be of type object").toList)),
        match fields.find? (fun f => ¬ (f.1 = ("time").toList
            ∨ f.1 = ("disclaimer").toList ∨ f.1 = ("bpi").toList)) with
        | some f => some (f.1 ++ (" is not allowed").toList)
        | none => none]
  | _ => some (("must be of type object").toList)

/-- The historical schema: time (without `updateduk`), disclaimer, and an
optional `bpi` object whose date-patterned keys carry positive numbers. -/
def historicalSchemaValidate (j : Json) : Option Str :=
  match j with
  | .obj fields =>
    firstErr
      [requiredField fields (("time").toList) (timeBlock false),
        requiredField fields (("disclaimer").toList) joiString,
        match lookupJson fields (("bpi").toList) with
        | none => none
        | some (.obj bf) =>
          firstErr (bf.map (fun f =>
            if datePatternKey f.1 then
              match joiPositiveNumber f.2 with
              | some m => some ((("bpi.").toList ++ f.1 ++ (" ").toList) ++ m)
              | none => none
            else some (f.1 ++ (" is not allowed").toList)))
        | some _ => some (("bpi must be of type object").toList),
        match fields.find? (fun f => ¬ (f.1 = ("time").toList
            ∨ f.1 = ("disclaimer").toList ∨ f.1 = ("bpi").toList)) with
        | some f => some (f.1 ++ (" is not allowed").toList)
        | none => none]
  | _ => some (("must be of type object").toList)

/-- The three schema constants exported by schemas.js. -/
inductive SchemaId where
  | currentpriceSchema
  | currentpriceCurrencySchema
  | historicalSchema
  deriving Repr, DecidableEq

/-- `schema.validate(response).error` for each schema. -/
def joiValidate : SchemaId → Json → Option Str
  | .currentpriceSchema => currentpriceSchemaValidate
  | .currentpriceCurrencySchema => currentpriceCurrencySchemaValidate
  | .historicalSchema => historicalSchemaValidate

/-- `getResponseSchema(dataType, currency)` (src/src/coindesk/utils.js). -/
def getResponseSchema (dataType : Str) (currency : Option Str) :
    Except JsErr SchemaId :=
  if dataType = API_CURRENTPRICE_DATA_TYPE then
    match currency with
    | none => .ok .currentpriceSchema
    | some _ => .ok .currentpriceCurrencySchema
  else if dataType = API_HISTORICAL_DATA_TYPE then .ok .historicalSchema
  else .error (.responseError (("Schema not found for data type.").toList))

/-- A property of the object returned by `schema.validate(response)`. -/
inductive JsProp where
  | undefValue
  | jsonVal (j : Json)
  | errObj (message : Str)

/-- JavaScript truthiness of such a property (`undefined` is falsy; the
response object and a ValidationError object are truthy). -/
def truthy : JsProp → Bool
  | .undefValue => false
  | .jsonVal _ => true
  | .errObj _ => true

/-- The own properties of the object returned by `schema.validate`:
`value` and `error` (undefined on success). -/
def joiResultProps (sid : SchemaId) (response : Json) : List (Str × JsProp) :=
  [(("value").toList, .jsonVal response),
    (("error").toList,
      match joiValidate sid response with
      | some m => .errObj m
      | none => .undefValue)]

/-- Destructuring `const { key } = obj`: a missing property is `undefined`. -/
def destructure (props : List (Str × JsProp)) (key : Str) : JsProp :=
  match props.find? (fun p => p.1 = key) with
  | some p => p.2
  | none => .undefValue

/-- `CoindeskAPIHttpResponse._validate(response, dataType, currency)`
exactly as written: look up the schema, destructure `errors` (not `error`)
from the validation result, and throw only when that — always undefined —
binding is truthy.  The throwing branch is dead code; were it ever reached
it would raise a ReferenceError, since it reads `error.message` and no
`error` is in scope. -/
def responseValidate (response : Json) (dataType : Str) (currency : Option Str) :
    Except JsErr Unit :=
  match getResponseSchema dataType currency with
  | .error e => .error e
  | .ok sid =>
    let errors := destructure (joiResultProps sid response) (("errors").toList)
    if truthy errors then .error (.typeError (("error is not defined").toList))
    else .ok ()

/-- The envelope returned by `parse`: the response wrapped unchanged. -/
structure ResponseEnvelope where
  response : Json

/-- `CoindeskAPIHttpResponse.parse(response, dataType, currency)`. -/
def responseParse (response : Json) (dataType : Str) (currency : Option Str) :
    Except JsErr ResponseEnvelope :=
  match responseValidate response dataType currency with
  | .error e => .error e
  | .ok () => .ok ⟨response⟩

/-- A historical payload whose `bpi` mapping contains a negative price. -/
def negativeHistoricalPayload : Json :=
  .obj [(("time").toList, .obj
        [(("updated").toList, .str ("2013-09-18T17:27:00.000Z").toList),
          (("updatedISO").toList, .str ("2013-09-18T17:27:00+00:00").toList)]),
    (("disclaimer").toList, .str ("This data was produced from the CoinDesk Bitcoin Price Index.").toList),
    (("bpi").toList, .obj
        [(("2013-09-17").toList, .num 127),
          (("2013-09-18").toList, .num (-5))])]

end Coindesk

namespace Coindesk

/-- Claim C3: `parse` never throws a validation error.  The Joi historical
schema does reject the payload whose `bpi` contains a negative number, but
`_validate` destructures the nonexistent `errors` property of the
validation result (which only carries `error`), so the rejection is
ignored and the invalid payload is wrapped in an envelope and returned;
for every schema-carrying dataType/currency combination, `parse` returns
the payload unchanged no matter what the response looks like. -/
theorem parse_ignores_schema_validation :
    (joiValidate .historicalSchema negativeHistoricalPayload).isSome = true
    ∧ responseParse negativeHistoricalPayload API_HISTORICAL_DATA_TYPE none
        = .ok ⟨negativeHistoricalPayload⟩
    ∧ (∀ (resp : Json) (currency : Option Str),
        responseParse resp API_HISTORICAL_DATA_TYPE currency = .ok ⟨resp⟩)
    ∧ (∀ (resp : Json) (currency : Option Str),
        responseParse resp API_CURRENTPRICE_DATA_TYPE currency = .ok ⟨resp⟩) := by
  refine ⟨by decide, rfl, ?_, ?_⟩
  · intro resp currency
    cases currency <;> rfl
  · intro resp currency
    cases currency <;> rfl

end Coindesk
